import Mathlib

/-!
Smart Library Management System: transaction and availability engine

A shallow embedding of `Smart_Library_Management_System.cpp`.

* Objects held through pointers (`Book*`, `Member*`, `Transaction*`) are
  records stored in lists; a pointer is the position of the record in the
  list that owns it.  The recent-activity stack therefore holds ledger
  positions, so an entry always shows the current state of its transaction.
* `time(nullptr)` is an input of every call that reads the clock.
* An exception is a result value; the state returned next to it is the state
  at the point of the `throw`.
* Console output is not modelled, except that the outcome of a call records
  which of the alternative messages was printed.
-/

namespace SmartLibrary

/-! ## Machine integers -/

/-- A C++ `int`: a 32-bit two's complement integer. -/
structure CInt where
  val : Int
  lo : -2147483648 ≤ val
  hi : val ≤ 2147483647
deriving DecidableEq

/-- The usual arithmetic conversion of an `int` operand to `size_t` (64-bit
unsigned), applied when an `int` is compared with a `size_t`. -/
def CInt.toSizeT (n : CInt) : Nat :=
  (n.val % 18446744073709551616).toNat

/-! ## Exceptions and outcomes -/

/-- The exceptions of the program: the three subclasses of `LibraryException`
and the plain `LibraryException` thrown by `Library::returnBook`. -/
inductive LibraryException where
  /-- Exception `BookNotFoundException(bookId)`. -/
  | bookNotFound (bookId : String)
  /-- Exception `InvalidMemberException(memberId)`. -/
  | invalidMember (memberId : String)
  /-- Exception `MaxIssueLimitException(memberId)`. -/
  | maxIssueLimit (memberId : String)
  /-- Exception `LibraryException("No active transaction found for this book and member.")`. -/
  | noActiveTransaction
deriving DecidableEq, Repr

deriving instance DecidableEq for Except

/-- How a call of `Library::issueBook` that does not throw ends: it prints
"Book issued successfully!" or "Book is not available. Adding to reservation
queue." -/
inductive IssueOutcome where
  | issued
  | queued
deriving DecidableEq, Repr

/-! ## Records -/

/-- Class `Book` (the fields of the subclasses `EBook` and `Journal` are only
displayed and are left out). -/
structure Book where
  bookId : String
  title : String
  author : String
  isAvailable : Bool
  category : String
deriving DecidableEq, Repr

/-- Constructor `Book::Book`: a new book is available. -/
def Book.new (id t a cat : String) : Book :=
  { bookId := id, title := t, author := a, isAvailable := true, category := cat }

/-- Setter `Book::setAvailability`. -/
def Book.setAvailability (b : Book) (status : Bool) : Book :=
  { b with isAvailable := status }

/-- Class `Member`. -/
structure Member where
  memberId : String
  name : String
  contactInfo : String
  issuedBooks : List String
  maxBooksAllowed : CInt
deriving DecidableEq

/-- Constructor `Member::Member`: a new member holds nothing. -/
def Member.new (id n contact : String) (maxBooks : CInt) : Member :=
  { memberId := id, name := n, contactInfo := contact, issuedBooks := [],
    maxBooksAllowed := maxBooks }

/-- Method `Member::issueBook`: throws when
`issuedBooks.size() >= maxBooksAllowed` (an unsigned comparison), otherwise
`push_back`. -/
def Member.issueBook (m : Member) (bookId : String) : Except LibraryException Member :=
  if m.issuedBooks.length ≥ m.maxBooksAllowed.toSizeT then
    .error (.maxIssueLimit m.memberId)
  else
    .ok { m with issuedBooks := m.issuedBooks ++ [bookId] }

/-- Method `Member::returnBook`: erases the first occurrence found by
`std::find`, if any. -/
def Member.returnBook (m : Member) (bookId : String) : Member :=
  { m with issuedBooks := m.issuedBooks.erase bookId }

/-- Class `Transaction`.  Timestamps are `time_t` seconds.  The fine is a
`double` in the source; every value it takes is an integer, kept here as one. -/
structure Transaction where
  transactionId : String
  memberId : String
  bookId : String
  issueDate : Int
  returnDate : Int
  fine : Int
  isReturned : Bool
deriving DecidableEq, Repr

/-- Constructor `Transaction::Transaction`; `now` is `time(nullptr)`. -/
def Transaction.new (tId mId bId : String) (now : Int) : Transaction :=
  { transactionId := tId, memberId := mId, bookId := bId, issueDate := now,
    returnDate := 0, fine := 0, isReturned := false }

/-- Conversion `static_cast<int>` of a `double` that is already truncated to a
whole number: the number itself when it fits a 32-bit `int`.  Out of range the
conversion is undefined in C++; the x86-64 conversion instruction then yields
the smallest `int`, which is the value taken here. -/
def castInt (x : Int) : Int :=
  if -2147483648 ≤ x ∧ x ≤ 2147483647 then x else -2147483648

/-- Method `Transaction::calculateFine`.  `difftime` and the division are exact
on clock values; `static_cast<int>` truncates toward zero (`Int.tdiv`) and then
converts to a 32-bit `int` (`castInt`).  The fine is assigned only when the
loan lasted more than 14 whole days. -/
def Transaction.calculateFine (t : Transaction) : Transaction :=
  let diffSeconds : Int := t.returnDate - t.issueDate
  let diffDays : Int := castInt (Int.tdiv diffSeconds (60 * 60 * 24))
  if diffDays > 14 then { t with fine := (diffDays - 14) * 2 } else t

/-- Method `Transaction::returnBook`; `now` is `time(nullptr)`. -/
def Transaction.returnBook (t : Transaction) (now : Int) : Transaction :=
  if !t.isReturned then
    Transaction.calculateFine { t with returnDate := now, isReturned := true }
  else t

/-- The fine policy in the words of the specification (section 4.2):
`days` is the floor of the elapsed time in whole days; the amount is
`(days - 14) * 2` when `days > 14` and `0` otherwise. -/
def finePolicy (issueTime returnTime : Int) : Int :=
  let days := (returnTime - issueTime) / 86400
  if days > 14 then (days - 14) * 2 else 0

/-- The two timestamps are less than `2^31` days apart, so that the day count of
`calculateFine` fits its `int`. -/
def DaysFit (issueTime returnTime : Int) : Prop :=
  -(2147483648 * 86400) < returnTime - issueTime
    ∧ returnTime - issueTime < 2147483648 * 86400

instance (issueTime returnTime : Int) : Decidable (DaysFit issueTime returnTime) := by
  unfold DaysFit
  infer_instance

/-! ## Searching -/

/-- The search loop shared by `GenericManager::search`, `Library::findMember`
and the ledger scan of `Library::returnBook`: the first element satisfying `p`,
front to back, with its position. -/
def firstMatch {α : Type} (p : α → Bool) : List α → Option (Nat × α)
  | [] => none
  | x :: xs =>
    if p x then some (0, x)
    else (firstMatch p xs).map (fun r => (r.1 + 1, r.2))

/-- Function `GenericManager<T>::search`: the index of the first item whose
identifier equals `id`; `none` stands for `-1`. -/
def GenericManager.search {T : Type} (items : List T) (id : String)
    (getIdFunc : T → String) : Option Nat :=
  (firstMatch (fun x => getIdFunc x == id) items).map Prod.fst

/-! ## The library -/

/-- Class `Library` (the `staff` vector takes no part in the engine).
`recentTransactions` lists the stack top first, `bookReservations` the queue
front first; `nextId` is the static counter of `generateTransactionId`. -/
structure Library where
  books : List Book
  members : List Member
  transactions : List Transaction
  recentTransactions : List Nat
  bookReservations : List (String × String)
  nextId : Nat
deriving DecidableEq

/-- Method `Library::addBook`. -/
def Library.addBook (s : Library) (book : Book) : Library :=
  { s with books := s.books ++ [book] }

/-- Method `Library::addMember`. -/
def Library.addMember (s : Library) (member : Member) : Library :=
  { s with members := s.members ++ [member] }

/-- Method `Library::findBook`: the pointer `books[index]` for the index given
by `GenericManager<Book>::search`, as that index and the book it points to;
`none` stands for `nullptr`. -/
def Library.findBook (s : Library) (bookId : String) : Option (Nat × Book) :=
  match GenericManager.search s.books bookId Book.bookId with
  | some index => s.books[index]?.map (fun book => (index, book))
  | none => none

/-- Method `Library::findMember`: the first member with the identifier, as its
position and the record; `none` stands for `nullptr`. -/
def Library.findMember (s : Library) (memberId : String) : Option (Nat × Member) :=
  firstMatch (fun m => m.memberId == memberId) s.members

/-- The loop of `Library::returnBook` that looks for the transaction: the first
ledger entry for the member and the book that is not returned. -/
def Library.findTransaction (s : Library) (memberId bookId : String) :
    Option (Nat × Transaction) :=
  firstMatch (fun t => t.memberId == memberId && t.bookId == bookId && !t.isReturned)
    s.transactions

/-- The state with the reservation queue replaced by `q` (a `push` or a `pop`
on `bookReservations`). -/
def Library.withReservations (s : Library) (q : List (String × String)) : Library :=
  { s with bookReservations := q }

/-- Method `Library::generateTransactionId`: pre-increments the counter. -/
def Library.generateTransactionId (s : Library) : String × Library :=
  ("T" ++ toString (s.nextId + 1), { s with nextId := s.nextId + 1 })

/-- Method `Library::issueBook`.  The result pairs the state the call leaves
behind with either the exception it rethrows or its outcome. -/
def Library.issueBook (s : Library) (memberId bookId : String) (now : Int) :
    Library × Except LibraryException IssueOutcome :=
  match s.findMember memberId with
  | none => (s, .error (.invalidMember memberId))
  | some (mi, member) =>
    match s.findBook bookId with
    | none => (s, .error (.bookNotFound bookId))
    | some (bi, book) =>
      if !book.isAvailable then
        (s.withReservations (s.bookReservations ++ [(memberId, bookId)]), .ok .queued)
      else
        match member.issueBook bookId with
        | .error e => (s, .error e)
        | .ok member1 =>
          let s1 := { s with members := s.members.set mi member1,
                             books := s.books.set bi (book.setAvailability false) }
          let (tId, s2) := s1.generateTransactionId
          let transaction := Transaction.new tId memberId bookId now
          ({ s2 with transactions := s2.transactions ++ [transaction],
                     recentTransactions := s2.transactions.length :: s2.recentTransactions },
            .ok .issued)

/-- Method `Library::returnBook`.  `now` is the clock read by
`Transaction::returnBook`, `nowIssue` the clock read if the follow-on issue
creates a transaction.  The outcome of a return that does not throw is `none`
when no reservation was processed and `some r` when the head reservation was
popped and the follow-on `issueBook` ended with `r` (an exception `r` is caught
inside the call). -/
def Library.returnBook (s : Library) (memberId bookId : String) (now nowIssue : Int) :
    Library × Except LibraryException (Option (Except LibraryException IssueOutcome)) :=
  match s.findMember memberId with
  | none => (s, .error (.invalidMember memberId))
  | some (mi, member) =>
    match s.findBook bookId with
    | none => (s, .error (.bookNotFound bookId))
    | some (bi, book) =>
      match s.findTransaction memberId bookId with
      | none => (s, .error .noActiveTransaction)
      | some (ti, transaction) =>
        let s1 := { s with members := s.members.set mi (member.returnBook bookId),
                           books := s.books.set bi (book.setAvailability true),
                           transactions := s.transactions.set ti (transaction.returnBook now),
                           recentTransactions := ti :: s.recentTransactions }
        match s1.bookReservations with
        | [] => (s1, .ok none)
        | reservation :: rest =>
          if reservation.2 == bookId then
            let r := Library.issueBook (s1.withReservations rest)
              reservation.1 reservation.2 nowIssue
            (r.1, .ok (some r.2))
          else (s1, .ok none)

/-- The state of `Library::returnBook` after "Process return" and the push on
the recent-activity stack, before the reservation check; the arguments are the
three pointers found by the searches. -/
def Library.closeLoan (s : Library) (mi : Nat) (member : Member) (bi : Nat) (book : Book)
    (ti : Nat) (transaction : Transaction) (bookId : String) (now : Int) : Library :=
  { s with members := s.members.set mi (member.returnBook bookId),
           books := s.books.set bi (book.setAvailability true),
           transactions := s.transactions.set ti (transaction.returnBook now),
           recentTransactions := ti :: s.recentTransactions }

/-- The state of `Library::issueBook` after a successful issue. -/
def Library.openLoan (s : Library) (mi : Nat) (member : Member) (bi : Nat) (book : Book)
    (memberId bookId : String) (now : Int) : Library :=
  { books := s.books.set bi (book.setAvailability false),
    members := s.members.set mi { member with issuedBooks := member.issuedBooks ++ [bookId] },
    transactions := s.transactions ++
      [Transaction.new ("T" ++ toString (s.nextId + 1)) memberId bookId now],
    recentTransactions := s.transactions.length :: s.recentTransactions,
    bookReservations := s.bookReservations,
    nextId := s.nextId + 1 }

/-- One call of the engine. -/
inductive Call where
  | issue (memberId bookId : String) (now : Int)
  | ret (memberId bookId : String) (now nowIssue : Int)

/-- The state a call leaves behind, whether it throws or not. -/
def Library.step (s : Library) : Call → Library
  | .issue m b now => (s.issueBook m b now).1
  | .ret m b now nowIssue => (s.returnBook m b now nowIssue).1

/-- The state after a sequence of calls. -/
def Library.run (s : Library) (calls : List Call) : Library :=
  calls.foldl Library.step s

/-- Number of unreturned ledger transactions that reference an item. -/
def Library.openCount (s : Library) (bookId : String) : Nat :=
  s.transactions.countP (fun t => t.bookId == bookId && !t.isReturned)

/-- Loan invariant: for the book that an identifier points to, the number of
unreturned transactions that reference the identifier is 0 when the book is
available and 1 when it is not. -/
def Library.LoanInv (s : Library) : Prop :=
  ∀ id bi book, s.findBook id = some (bi, book) →
    s.openCount id = if book.isAvailable then 0 else 1

/-- Holdings invariant: the held items of the member that an identifier points
to are the items of that identifier's unreturned transactions, in ledger
order. -/
def Library.HeldInv (s : Library) : Prop :=
  ∀ id mi m, s.findMember id = some (mi, m) →
    m.issuedBooks =
      (s.transactions.filter (fun t => t.memberId == id && !t.isReturned)).map
        Transaction.bookId

/-- Every unreturned transaction carries fine 0 and return date 0, as the
constructor of `Transaction` leaves them. -/
def Library.FineInv (s : Library) : Prop :=
  ∀ t ∈ s.transactions, t.isReturned = false → t.fine = 0 ∧ t.returnDate = 0

/-- A freshly loaded catalog: records as their constructors leave them (books
available, members holding nothing), empty ledger, stack and queue. -/
def Library.Fresh (s : Library) : Prop :=
  (∀ b ∈ s.books, b.isAvailable = true) ∧ (∀ m ∈ s.members, m.issuedBooks = [])
    ∧ s.transactions = [] ∧ s.recentTransactions = [] ∧ s.bookReservations = []

instance (s : Library) : Decidable s.Fresh := by
  unfold Library.Fresh
  infer_instance

/-- States reachable from `s0` by calls of `issueBook` and `returnBook`, whether
they throw or not. -/
inductive Library.Reachable (s0 : Library) : Library → Prop where
  | init : Library.Reachable s0 s0
  | step (s : Library) (c : Call) : Library.Reachable s0 s → Library.Reachable s0 (s.step c)

/-- Capacity invariant: every borrower has a non-negative maximum and holds at
most that many items. -/
def Library.CapInv (s : Library) : Prop :=
  ∀ m ∈ s.members, 0 ≤ m.maxBooksAllowed.val
    ∧ (m.issuedBooks.length : Int) ≤ m.maxBooksAllowed.val

/-- The loop of `Library::displayRecentTransactions`: while `tempStack` is not
empty and `i < count`, the top is appended to `recentOnes` and popped, and `i`
is incremented.  The result is `recentOnes`. -/
def recentLoop (count : Int) : List Nat → Int → List Nat
  | [], _ => []
  | top :: tempStack, i =>
    if i < count then top :: recentLoop count tempStack (i + 1) else []

/-- Method `Library::displayRecentTransactions`: the state it leaves behind and
the pointers in `recentOnes`, in the order in which they are displayed.  The
loop runs on a copy of the stack. -/
def Library.displayRecentTransactions (s : Library) (count : Int) : Library × List Nat :=
  if s.recentTransactions.isEmpty then (s, [])
  else (s, recentLoop count s.recentTransactions 0)

/-- The transactions displayed by `displayRecentTransactions`: each pointer of
`recentOnes` read through the ledger. -/
def Library.recentView (s : Library) (count : Int) : List (Option Transaction) :=
  (s.displayRecentTransactions count).2.map (fun ptr => s.transactions[ptr]?)

/-- Operator `<` of `std::string`: lexicographic comparison, character by
character. -/
def stringLess (a b : String) : Bool :=
  decide (a.toList < b.toList)

/-- Function `GenericManager<T>::sort`: `std::sort` with the comparator
`a.id < b.id`.  The standard library's `std::sort` is modelled by an insertion
sort that puts `a` before `b` unless the comparator says `b < a`. -/
def GenericManager.sort {T : Type} (items : List T) (getIdFunc : T → String) : List T :=
  items.insertionSort (fun a b => stringLess (getIdFunc b) (getIdFunc a) = false)

/-- Method `Library::sortBooksByID`. -/
def Library.sortBooksByID (s : Library) : Library :=
  { s with books := GenericManager.sort s.books Book.bookId }

/-- How a ledger entry may differ between two states: not at all, or it was
unreturned and is now returned, with the same transaction identifier,
borrower, item and issue time. -/
def Transaction.Settles (t t1 : Transaction) : Prop :=
  t1 = t ∨ (t.isReturned = false ∧ t1.isReturned = true
    ∧ t1.transactionId = t.transactionId ∧ t1.memberId = t.memberId
    ∧ t1.bookId = t.bookId ∧ t1.issueDate = t.issueDate)

/-- Ledger `l1` continues ledger `l`: it is at least as long, and every entry
of `l` sits at the same index in `l1`, unchanged or settled; an entry that was
already returned is unchanged. -/
def LedgerExtends (l l1 : List Transaction) : Prop :=
  l.length ≤ l1.length
    ∧ ∀ (k : Nat) (t : Transaction), l[k]? = some t →
        ∃ t1, l1[k]? = some t1 ∧ t.Settles t1 ∧ (t.isReturned = true → t1 = t)

/-- The number that a list of decimal digit characters renders, read after the
digits already accumulated in `acc`. -/
def digitsValue (cs : List Char) (acc : Nat) : Nat :=
  cs.foldl (fun a c => 10 * a + (c.toNat - 48)) acc

/-- Identifier invariant: the counter is 1000 plus the number of transactions
created, and the transaction at ledger index `k` (the `k + 1`-th created) has
the identifier `T` followed by the decimal rendering of `1000 + (k + 1)`. -/
def Library.IdInv (s : Library) : Prop :=
  s.nextId = 1000 + s.transactions.length
    ∧ ∀ (k : Nat) (t : Transaction), s.transactions[k]? = some t →
        t.transactionId = "T" ++ toString (1000 + (k + 1))

/-- Queue invariant: every reservation names an indexed borrower and an indexed
item. -/
def Library.QueueInv (s : Library) : Prop :=
  ∀ r ∈ s.bookReservations,
    r.1 ∈ s.members.map Member.memberId ∧ r.2 ∈ s.books.map Book.bookId

/-- The figures printed at the end of `Library::generateBookStatusReport`:
`books.size()` and the two counters. -/
structure BookStatusReport where
  totalBooks : Nat
  available : Nat
  issued : Nat
deriving DecidableEq, Repr

/-- Method `Library::generateBookStatusReport`: the loop over `books` increments
`available` for an available book and `issued` otherwise.  The method is
`const`; its result is what it prints. -/
def Library.generateBookStatusReport (s : Library) : BookStatusReport :=
  let counters := s.books.foldl
    (fun (acc : Nat × Nat) book =>
      if book.isAvailable then (acc.1 + 1, acc.2) else (acc.1, acc.2 + 1))
    (0, 0)
  { totalBooks := s.books.length, available := counters.1, issued := counters.2 }

/-! ## A sample catalog -/

/-- The `int` values used in the sample catalogs. -/
def int3 : CInt := ⟨3, by decide, by decide⟩
def int1 : CInt := ⟨1, by decide, by decide⟩

/-- A freshly loaded catalog: two books, borrower `M1` with limit 1, borrowers
`M2` and `M3` with limit 3. -/
def sample : Library :=
  { books := [Book.new "B1" "t1" "a1" "c1", Book.new "B2" "t2" "a2" "c2"],
    members := [Member.new "M1" "n1" "x1" int1, Member.new "M2" "n2" "x2" int3,
      Member.new "M3" "n3" "x3" int3],
    transactions := [], recentTransactions := [], bookReservations := [], nextId := 1000 }

/-- The sample catalog after `B1` was issued to `M1`. -/
def sampleLoaned : Library := (sample.issueBook "M1" "B1" 5).1

/-- Book `B1` on loan to `M3`, `M1` at the limit with `B2`, and the queue
`[(M1, B1)]`. -/
def sampleAtLimit : Library :=
  sample.run [.issue "M3" "B1" 1, .issue "M1" "B2" 2, .issue "M1" "B1" 3]

/-- Book `B1` on loan to `M2`, who has also reserved it: the queue is
`[(M2, B1)]`. -/
def sampleSelfReserved : Library :=
  sample.run [.issue "M2" "B1" 1, .issue "M2" "B1" 2]

def intNeg1 : CInt := ⟨-1, by decide, by decide⟩

/-- A freshly loaded catalog whose only borrower was constructed with the
maximum `-1`. -/
def sampleNegative : Library :=
  { books := [Book.new "B1" "t1" "a1" "c1", Book.new "B2" "t2" "a2" "c2"],
    members := [Member.new "M9" "n9" "x9" intNeg1],
    transactions := [], recentTransactions := [], bookReservations := [], nextId := 1000 }

/-- Book `B1` back on the shelf while `M2` still has a reservation for it at the
head of the queue: `M2` reserved `B1` behind the reservation `(M1, B2)`, `B1`
was returned first (the head named `B2`, so nothing was processed), then `B2`
was returned and went to `M1`.  The queue is `[(M2, B1)]`. -/
def sampleStaleReservation : Library :=
  sample.run [.issue "M3" "B1" 1, .issue "M3" "B2" 2, .issue "M1" "B2" 3, .issue "M2" "B1" 4,
    .ret "M3" "B1" 5 6, .ret "M3" "B2" 7 8]

/-- Both books on loan to `M3`, with the queue `[(M1, B1), (M2, B2)]`. -/
def sampleTwoReservations : Library :=
  sample.run [.issue "M3" "B1" 1, .issue "M3" "B2" 2, .issue "M1" "B1" 3, .issue "M2" "B2" 4]


/-! ## The search loop -/

theorem firstMatch_some {α : Type} {p : α → Bool} {l : List α} {k : Nat} {x : α}
    (h : firstMatch p l = some (k, x)) : l[k]? = some x ∧ p x = true := by
  induction l generalizing k with
  | nil => simp [firstMatch] at h
  | cons a l ih =>
    unfold firstMatch at h
    by_cases ha : p a = true
    · simp [ha] at h
      obtain ⟨rfl, rfl⟩ := h
      simp [ha]
    · simp [ha] at h
      obtain ⟨j, hj, rfl⟩ := h
      simpa using ih hj

theorem firstMatch_lt {α : Type} {p : α → Bool} {l : List α} {k : Nat} {x : α}
    (h : firstMatch p l = some (k, x)) : k < l.length := by
  have h1 := (firstMatch_some h).1
  rw [List.getElem?_eq_some_iff] at h1
  exact h1.1

theorem firstMatch_eq_none {α : Type} {p : α → Bool} {l : List α} :
    firstMatch p l = none ↔ ∀ x ∈ l, p x = false := by
  induction l with
  | nil => simp [firstMatch]
  | cons a l ih =>
    unfold firstMatch
    by_cases ha : p a = true
    · simp [ha]
    · simp [ha, ih]

theorem firstMatch_first {α : Type} {p : α → Bool} {l : List α} {k : Nat} {x : α}
    (h : firstMatch p l = some (k, x)) :
    ∀ j, j < k → ∀ y, l[j]? = some y → p y = false := by
  induction l generalizing k with
  | nil => simp [firstMatch] at h
  | cons a l ih =>
    unfold firstMatch at h
    by_cases ha : p a = true
    · simp [ha] at h
      obtain ⟨rfl, rfl⟩ := h
      intro j hj
      omega
    · simp [ha] at h
      obtain ⟨i, hi, rfl⟩ := h
      intro j hj y hy
      cases j with
      | zero =>
        simp at hy
        subst hy
        simpa using ha
      | succ j =>
        simp at hy
        exact ih hi j (by omega) y hy

theorem firstMatch_map_fst {α : Type} {p : α → Bool} {l : List α} {k : Nat}
    (h : (firstMatch p l).map Prod.fst = some k) :
    ∃ x, firstMatch p l = some (k, x) := by
  cases hf : firstMatch p l with
  | none => simp [hf] at h
  | some r =>
    obtain ⟨j, x⟩ := r
    simp [hf] at h
    exact ⟨x, by rw [h]⟩

/-- Writing a matching record through the pointer that the search returned
leaves the search result at the same position. -/
theorem firstMatch_set_hit {α : Type} {p : α → Bool} {l : List α} {k : Nat} {x v : α}
    (h : firstMatch p l = some (k, x)) (hv : p v = true) :
    firstMatch p (l.set k v) = some (k, v) := by
  induction l generalizing k with
  | nil => simp [firstMatch] at h
  | cons a l ih =>
    unfold firstMatch at h
    by_cases ha : p a = true
    · simp [ha] at h
      obtain ⟨rfl, rfl⟩ := h
      simp [firstMatch, hv]
    · simp [ha] at h
      obtain ⟨j, hj, rfl⟩ := h
      simp [firstMatch, ha, ih hj]

/-- Replacing a record that does not match by one that does not match either
does not change the search. -/
theorem firstMatch_set_miss {α : Type} {p : α → Bool} {l : List α} {k : Nat} {x v : α}
    (h : l[k]? = some x) (hx : p x = false) (hv : p v = false) :
    firstMatch p (l.set k v) = firstMatch p l := by
  induction l generalizing k with
  | nil => simp at h
  | cons a l ih =>
    cases k with
    | zero =>
      simp at h
      subst h
      simp [firstMatch, hx, hv]
    | succ k =>
      simp at h
      simp [firstMatch, ih h]

theorem findBook_eq (s : Library) (bookId : String) :
    s.findBook bookId = firstMatch (fun b => b.bookId == bookId) s.books := by
  unfold Library.findBook GenericManager.search
  cases hf : firstMatch (fun b : Book => b.bookId == bookId) s.books with
  | none => simp
  | some r =>
    obtain ⟨k, x⟩ := r
    simp [(firstMatch_some hf).1]

/-! ## What a call does, case by case -/

@[simp] theorem withReservations_books (s : Library) (q : List (String × String)) :
    (s.withReservations q).books = s.books := rfl

@[simp] theorem withReservations_members (s : Library) (q : List (String × String)) :
    (s.withReservations q).members = s.members := rfl

@[simp] theorem withReservations_transactions (s : Library) (q : List (String × String)) :
    (s.withReservations q).transactions = s.transactions := rfl

@[simp] theorem withReservations_recentTransactions (s : Library)
    (q : List (String × String)) :
    (s.withReservations q).recentTransactions = s.recentTransactions := rfl

@[simp] theorem withReservations_bookReservations (s : Library)
    (q : List (String × String)) : (s.withReservations q).bookReservations = q := rfl

@[simp] theorem withReservations_nextId (s : Library) (q : List (String × String)) :
    (s.withReservations q).nextId = s.nextId := rfl

@[simp] theorem withReservations_findMember (s : Library) (q : List (String × String))
    (id : String) : (s.withReservations q).findMember id = s.findMember id := rfl

@[simp] theorem withReservations_findBook (s : Library) (q : List (String × String))
    (id : String) : (s.withReservations q).findBook id = s.findBook id := rfl

@[simp] theorem withReservations_findTransaction (s : Library) (q : List (String × String))
    (m b : String) : (s.withReservations q).findTransaction m b = s.findTransaction m b := rfl

@[simp] theorem withReservations_openCount (s : Library) (q : List (String × String))
    (id : String) : (s.withReservations q).openCount id = s.openCount id := rfl

theorem issueBook_noMember {s : Library} {memberId bookId : String} {now : Int}
    (hm : s.findMember memberId = none) :
    s.issueBook memberId bookId now = (s, .error (.invalidMember memberId)) := by
  simp [Library.issueBook, hm]

theorem issueBook_noBook {s : Library} {memberId bookId : String} {now : Int}
    {mi : Nat} {member : Member}
    (hm : s.findMember memberId = some (mi, member)) (hb : s.findBook bookId = none) :
    s.issueBook memberId bookId now = (s, .error (.bookNotFound bookId)) := by
  simp [Library.issueBook, hm, hb]

theorem issueBook_queued {s : Library} {memberId bookId : String} {now : Int}
    {mi : Nat} {member : Member} {bi : Nat} {book : Book}
    (hm : s.findMember memberId = some (mi, member))
    (hb : s.findBook bookId = some (bi, book)) (ha : book.isAvailable = false) :
    s.issueBook memberId bookId now =
      (s.withReservations (s.bookReservations ++ [(memberId, bookId)]), .ok .queued) := by
  simp [Library.issueBook, hm, hb, ha]

theorem issueBook_limit {s : Library} {memberId bookId : String} {now : Int}
    {mi : Nat} {member : Member} {bi : Nat} {book : Book}
    (hm : s.findMember memberId = some (mi, member))
    (hb : s.findBook bookId = some (bi, book)) (ha : book.isAvailable = true)
    (hl : member.issuedBooks.length ≥ member.maxBooksAllowed.toSizeT) :
    s.issueBook memberId bookId now = (s, .error (.maxIssueLimit member.memberId)) := by
  simp [Library.issueBook, hm, hb, ha, Member.issueBook, hl]

theorem issueBook_issued {s : Library} {memberId bookId : String} {now : Int}
    {mi : Nat} {member : Member} {bi : Nat} {book : Book}
    (hm : s.findMember memberId = some (mi, member))
    (hb : s.findBook bookId = some (bi, book)) (ha : book.isAvailable = true)
    (hl : member.issuedBooks.length < member.maxBooksAllowed.toSizeT) :
    s.issueBook memberId bookId now =
      (s.openLoan mi member bi book memberId bookId now, .ok .issued) := by
  have hl2 : ¬ member.issuedBooks.length ≥ member.maxBooksAllowed.toSizeT := by omega
  simp [Library.issueBook, hm, hb, ha, Member.issueBook, hl2, Library.openLoan,
    Library.generateTransactionId]

theorem returnBook_noMember {s : Library} {memberId bookId : String} {now nowIssue : Int}
    (hm : s.findMember memberId = none) :
    s.returnBook memberId bookId now nowIssue = (s, .error (.invalidMember memberId)) := by
  simp [Library.returnBook, hm]

theorem returnBook_noBook {s : Library} {memberId bookId : String} {now nowIssue : Int}
    {mi : Nat} {member : Member}
    (hm : s.findMember memberId = some (mi, member)) (hb : s.findBook bookId = none) :
    s.returnBook memberId bookId now nowIssue = (s, .error (.bookNotFound bookId)) := by
  simp [Library.returnBook, hm, hb]

theorem returnBook_noTransaction {s : Library} {memberId bookId : String}
    {now nowIssue : Int} {mi : Nat} {member : Member} {bi : Nat} {book : Book}
    (hm : s.findMember memberId = some (mi, member))
    (hb : s.findBook bookId = some (bi, book))
    (ht : s.findTransaction memberId bookId = none) :
    s.returnBook memberId bookId now nowIssue = (s, .error .noActiveTransaction) := by
  simp [Library.returnBook, hm, hb, ht]

/-- A return whose reservation check finds nothing to process. -/
theorem returnBook_plain {s : Library} {memberId bookId : String}
    {now nowIssue : Int} {mi : Nat} {member : Member} {bi : Nat} {book : Book}
    {ti : Nat} {t : Transaction}
    (hm : s.findMember memberId = some (mi, member))
    (hb : s.findBook bookId = some (bi, book))
    (ht : s.findTransaction memberId bookId = some (ti, t))
    (hq : ∀ r ∈ s.bookReservations.head?, r.2 ≠ bookId) :
    s.returnBook memberId bookId now nowIssue =
      (s.closeLoan mi member bi book ti t bookId now, .ok none) := by
  cases hqq : s.bookReservations with
  | nil => simp [Library.returnBook, hm, hb, ht, hqq, Library.closeLoan]
  | cons r rest =>
    have hne : r.2 ≠ bookId := hq r (by simp [hqq])
    simp [Library.returnBook, hm, hb, ht, hqq, Library.closeLoan, hne]

/-- A return that pops the head reservation and runs the follow-on issue. -/
theorem returnBook_follow {s : Library} {memberId bookId : String}
    {now nowIssue : Int} {mi : Nat} {member : Member} {bi : Nat} {book : Book}
    {ti : Nat} {t : Transaction} {r : String × String} {rest : List (String × String)}
    (hm : s.findMember memberId = some (mi, member))
    (hb : s.findBook bookId = some (bi, book))
    (ht : s.findTransaction memberId bookId = some (ti, t))
    (hq : s.bookReservations = r :: rest) (hr : r.2 = bookId) :
    s.returnBook memberId bookId now nowIssue =
      ((Library.issueBook
          ((s.closeLoan mi member bi book ti t bookId now).withReservations rest)
          r.1 bookId nowIssue).1,
        .ok (some (Library.issueBook
          ((s.closeLoan mi member bi book ti t bookId now).withReservations rest)
          r.1 bookId nowIssue).2)) := by
  simp [Library.returnBook, hm, hb, ht, hq, Library.closeLoan, hr]

/-- A return that does not throw found the member, the book and an open
transaction. -/
theorem returnBook_ok_inv {s : Library} {memberId bookId : String} {now nowIssue : Int}
    {o : Option (Except LibraryException IssueOutcome)}
    (h : (s.returnBook memberId bookId now nowIssue).2 = .ok o) :
    ∃ mi member bi book ti t, s.findMember memberId = some (mi, member) ∧
      s.findBook bookId = some (bi, book) ∧
      s.findTransaction memberId bookId = some (ti, t) := by
  cases hm : s.findMember memberId with
  | none => rw [returnBook_noMember hm] at h; simp at h
  | some r1 =>
    obtain ⟨mi, member⟩ := r1
    cases hb : s.findBook bookId with
    | none => rw [returnBook_noBook hm hb] at h; simp at h
    | some r2 =>
      obtain ⟨bi, book⟩ := r2
      cases ht : s.findTransaction memberId bookId with
      | none => rw [returnBook_noTransaction hm hb ht] at h; simp at h
      | some r3 =>
        obtain ⟨ti, t⟩ := r3
        exact ⟨mi, member, bi, book, ti, t, rfl, rfl, rfl⟩

/-! ## The fine -/

theorem tdiv_day_of_nonneg {d : Int} (h : 0 ≤ d) : Int.tdiv d (60 * 60 * 24) = d / 86400 := by
  rw [Int.tdiv_eq_ediv h (by decide)]
  norm_num

theorem tdiv_day_of_neg {d : Int} (h : d < 0) : Int.tdiv d (60 * 60 * 24) ≤ 0 := by
  have h1 : 0 ≤ Int.tdiv (-d) (60 * 60 * 24) := Int.tdiv_nonneg (by omega) (by decide)
  rw [Int.neg_tdiv] at h1
  omega

theorem tdiv_day_neg_eq {d : Int} (h : d < 0) :
    Int.tdiv d (60 * 60 * 24) = -((-d) / 86400) := by
  have h1 : Int.tdiv (-d) (60 * 60 * 24) = (-d) / 86400 := tdiv_day_of_nonneg (by omega)
  rw [Int.neg_tdiv] at h1
  omega

/-- Within the range of the day count the conversion to `int` changes
nothing. -/
theorem castInt_days {d : Int} (h1 : -(2147483648 * 86400) < d) (h2 : d < 2147483648 * 86400) :
    castInt (Int.tdiv d (60 * 60 * 24)) = Int.tdiv d (60 * 60 * 24) := by
  unfold castInt
  by_cases hd : 0 ≤ d
  · rw [tdiv_day_of_nonneg hd]
    rw [if_pos (by omega)]
  · rw [tdiv_day_neg_eq (by omega)]
    rw [if_pos (by omega)]

/-- Closing a transaction that carries no fine yet sets the return time and
the flag and stores a fine; the other fields stay.  When the timestamps are
less than `2^31` days apart the fine is the fine of the policy. -/
theorem returnBook_stored (t : Transaction) (now : Int) (hr : t.isReturned = false)
    (hf : t.fine = 0) :
    ∃ f, t.returnBook now = { t with returnDate := now, isReturned := true, fine := f }
      ∧ (DaysFit t.issueDate now → f = finePolicy t.issueDate now) := by
  refine ⟨(t.returnBook now).fine, ?_, ?_⟩
  · unfold Transaction.returnBook Transaction.calculateFine
    simp only [hr, Bool.not_false, if_true]
    split <;> rfl
  · intro hfit
    unfold Transaction.returnBook Transaction.calculateFine finePolicy
    simp only [hr, Bool.not_false, if_true]
    rw [castInt_days hfit.1 hfit.2]
    by_cases hd : 0 ≤ now - t.issueDate
    · rw [tdiv_day_of_nonneg hd]
      split <;> simp [hf]
    · have h1 := tdiv_day_of_neg (d := now - t.issueDate) (by omega)
      have h2 : ¬ (Int.tdiv (now - t.issueDate) (60 * 60 * 24) > 14) := by omega
      have h3 : ¬ ((now - t.issueDate) / 86400 > 14) := by omega
      simp only [h2, h3, if_false]
      exact hf

/-- A returned transaction is not touched by `Transaction::returnBook`. -/
theorem returnBook_closed (t : Transaction) (now : Int) (hr : t.isReturned = true) :
    t.returnBook now = t := by
  simp [Transaction.returnBook, hr]

/-- C4 as stated fails: a transaction issued at time 0 and closed `2^31` days
later has `days = 2147483648 > 14`, so the claim gives the fine
`(2147483648 - 14) * 2 = 4294967268`; the day count does not fit the `int` of
`calculateFine`, the converted value is not above 14 and the stored fine stays
0. -/
theorem fine_policy_counterexample :
    ((Transaction.new "T1001" "M1" "B1" 0).returnBook 185542587187200).fine = 0
      ∧ (185542587187200 - 0 : Int) / 86400 = 2147483648
      ∧ finePolicy 0 185542587187200 = 4294967268
      ∧ ((Transaction.new "T1001" "M1" "B1" 0).returnBook 185542587187200).fine ≠
          finePolicy 0 185542587187200 := by
  decide

/-- C4 (amended): for all timestamps less than `2^31` days apart, also with a
return time before the issue time, the fine stored when a transaction made by
the constructor is closed is `(days - 14) * 2` when `days > 14` and `0`
otherwise, where `days` is the floor of `(returnTime - issueTime) / 86400`;
closing after 10 days or after exactly 14 days gives 0, after 20 days gives
12. -/
theorem fine_policy (tId mId bId : String) (issueTime returnTime : Int) :
    (DaysFit issueTime returnTime →
        ((Transaction.new tId mId bId issueTime).returnBook returnTime).fine =
            (if (returnTime - issueTime) / 86400 > 14
              then ((returnTime - issueTime) / 86400 - 14) * 2 else 0)
          ∧ ((Transaction.new tId mId bId issueTime).returnBook returnTime).fine =
              finePolicy issueTime returnTime)
      ∧ ((Transaction.new tId mId bId issueTime).returnBook (issueTime + 10 * 86400)).fine = 0
      ∧ ((Transaction.new tId mId bId issueTime).returnBook (issueTime + 14 * 86400)).fine = 0
      ∧ ((Transaction.new tId mId bId issueTime).returnBook (issueTime + 20 * 86400)).fine = 12 := by
  have key : ∀ r : Int, DaysFit issueTime r →
      ((Transaction.new tId mId bId issueTime).returnBook r).fine =
      (if (r - issueTime) / 86400 > 14 then ((r - issueTime) / 86400 - 14) * 2 else 0) := by
    intro r hfit
    obtain ⟨f, h1, h2⟩ := returnBook_stored (Transaction.new tId mId bId issueTime) r rfl rfl
    rw [h1]
    exact h2 hfit
  refine ⟨fun hfit => ⟨key _ hfit, key _ hfit⟩, ?_, ?_, ?_⟩
  · rw [key _ (by unfold DaysFit; omega)]
    have : (issueTime + 10 * 86400 - issueTime) / 86400 = 10 := by omega
    simp [this]
  · rw [key _ (by unfold DaysFit; omega)]
    have : (issueTime + 14 * 86400 - issueTime) / 86400 = 14 := by omega
    simp [this]
  · rw [key _ (by unfold DaysFit; omega)]
    have : (issueTime + 20 * 86400 - issueTime) / 86400 = 20 := by omega
    simp [this]

theorem fine_policy_witness :
    DaysFit 1000 (1000 + 30 * 86400 + 5)
      ∧ ((Transaction.new "T1001" "M1" "B1" 1000).returnBook (1000 + 30 * 86400 + 5)).fine = 32
      ∧ DaysFit 1000 (-5000)
      ∧ ((Transaction.new "T1001" "M1" "B1" 1000).returnBook (-5000)).fine = 0 :=
  ⟨by decide,
    ((fine_policy "T1001" "M1" "B1" 1000 (1000 + 30 * 86400 + 5)).1 (by decide)).1.trans
      (by decide),
    by decide,
    ((fine_policy "T1001" "M1" "B1" 1000 (-5000)).1 (by decide)).1.trans (by decide)⟩

/-! ## Pointers returned by the searches -/

theorem findMember_some {s : Library} {memberId : String} {mi : Nat} {m : Member}
    (h : s.findMember memberId = some (mi, m)) :
    s.members[mi]? = some m ∧ m.memberId = memberId := by
  have h1 := firstMatch_some h
  simpa using h1

theorem findBook_some {s : Library} {bookId : String} {bi : Nat} {b : Book}
    (h : s.findBook bookId = some (bi, b)) :
    s.books[bi]? = some b ∧ b.bookId = bookId := by
  rw [findBook_eq] at h
  have h1 := firstMatch_some h
  simpa using h1

theorem findTransaction_some {s : Library} {memberId bookId : String} {ti : Nat}
    {t : Transaction} (h : s.findTransaction memberId bookId = some (ti, t)) :
    s.transactions[ti]? = some t ∧ t.memberId = memberId ∧ t.bookId = bookId ∧
      t.isReturned = false := by
  have h1 := firstMatch_some h
  simpa [and_assoc] using h1

theorem toSizeT_of_nonneg {n : CInt} (h : 0 ≤ n.val) : n.toSizeT = n.val.toNat := by
  have := n.hi
  unfold CInt.toSizeT
  omega

theorem toSizeT_of_neg {n : CInt} (h : n.val < 0) :
    n.toSizeT = (18446744073709551616 + n.val).toNat := by
  have := n.lo
  unfold CInt.toSizeT
  omega

/-! ## Issue -/

/-- C2: issuing an available, indexed item to an indexed borrower whose held
count is below their maximum succeeds; the item is appended to the borrower's
held items (count plus one), the item becomes unavailable, exactly one
transaction for the pair, unreturned, with fine 0 and issue time `now`, is
appended to the ledger and becomes the top of the recent-activity stack, and
the reservation queue is unchanged. -/
theorem issueBook_success (s : Library) (b i : String) (now : Int)
    (mi : Nat) (m : Member) (bi : Nat) (book : Book)
    (hm : s.findMember b = some (mi, m)) (hb : s.findBook i = some (bi, book))
    (ha : book.isAvailable = true)
    (hl : (m.issuedBooks.length : Int) < m.maxBooksAllowed.val) :
    (s.issueBook b i now).2 = .ok .issued
      ∧ (∃ m1, (s.issueBook b i now).1.findMember b = some (mi, m1)
          ∧ m1.issuedBooks = m.issuedBooks ++ [i]
          ∧ m1.issuedBooks.length = m.issuedBooks.length + 1
          ∧ (s.issueBook b i now).1.members = s.members.set mi m1)
      ∧ (∃ book1, (s.issueBook b i now).1.findBook i = some (bi, book1)
          ∧ book1.isAvailable = false
          ∧ (s.issueBook b i now).1.books = s.books.set bi book1)
      ∧ (∃ t, (s.issueBook b i now).1.transactions = s.transactions ++ [t]
          ∧ t.memberId = b ∧ t.bookId = i ∧ t.isReturned = false ∧ t.fine = 0
          ∧ t.issueDate = now
          ∧ (s.issueBook b i now).1.recentTransactions =
              s.transactions.length :: s.recentTransactions
          ∧ (s.issueBook b i now).1.transactions[s.transactions.length]? = some t)
      ∧ (s.issueBook b i now).1.bookReservations = s.bookReservations := by
  have hl2 : m.issuedBooks.length < m.maxBooksAllowed.toSizeT := by
    rw [toSizeT_of_nonneg (by omega)]
    omega
  rw [issueBook_issued hm hb ha hl2]
  refine ⟨rfl, ⟨_, ?_, rfl, by simp, rfl⟩, ⟨_, ?_, rfl, rfl⟩,
    ⟨_, rfl, rfl, rfl, rfl, rfl, rfl, rfl, by simp [Library.openLoan]⟩, rfl⟩
  · exact firstMatch_set_hit hm (by simpa using (findMember_some hm).2)
  · rw [findBook_eq] at hb ⊢
    exact firstMatch_set_hit hb (by simpa [Library.openLoan, Book.setAvailability]
      using (firstMatch_some hb).2)

theorem issueBook_success_witness :
    sample.findMember "M1" = some (0, Member.new "M1" "n1" "x1" int1)
      ∧ sample.findBook "B1" = some (0, Book.new "B1" "t1" "a1" "c1")
      ∧ (sample.issueBook "M1" "B1" 5).2 = .ok .issued :=
  ⟨rfl, rfl, (issueBook_success sample "M1" "B1" 5 0 _ 0 _ rfl rfl rfl (by decide)).1⟩

/-- C5: issuing an unavailable, indexed item to an indexed borrower does not
throw; the outcome is "queued", the pair is appended at the back of the
reservation queue and nothing else changes, whatever the borrower holds or has
reserved. -/
theorem issueBook_unavailable (s : Library) (b i : String) (now : Int)
    (mi : Nat) (m : Member) (bi : Nat) (book : Book)
    (hm : s.findMember b = some (mi, m)) (hb : s.findBook i = some (bi, book))
    (ha : book.isAvailable = false) :
    (s.issueBook b i now).2 = .ok .queued
      ∧ (s.issueBook b i now).1.bookReservations = s.bookReservations ++ [(b, i)]
      ∧ (s.issueBook b i now).1.books = s.books
      ∧ (s.issueBook b i now).1.members = s.members
      ∧ (s.issueBook b i now).1.transactions = s.transactions
      ∧ (s.issueBook b i now).1.recentTransactions = s.recentTransactions
      ∧ (s.issueBook b i now).1.nextId = s.nextId := by
  rw [issueBook_queued hm hb ha]
  exact ⟨rfl, rfl, rfl, rfl, rfl, rfl, rfl⟩

theorem issueBook_unavailable_witness :
    (sample.issueBook "M1" "B1" 5).1.findMember "M1" =
        some (0, { Member.new "M1" "n1" "x1" int1 with issuedBooks := ["B1"] })
      ∧ (sample.issueBook "M1" "B1" 5).1.findBook "B1" =
        some (0, (Book.new "B1" "t1" "a1" "c1").setAvailability false)
      ∧ ((sample.issueBook "M1" "B1" 5).1.issueBook "M1" "B1" 6).1.bookReservations =
        [("M1", "B1")] :=
  ⟨rfl, rfl,
    (issueBook_unavailable (sample.issueBook "M1" "B1" 5).1 "M1" "B1" 6 0 _ 0 _
      rfl rfl rfl).2.1⟩

/-! ## Return -/

theorem openCount_closeLoan_le (s : Library) (mi : Nat) (member : Member) (bi : Nat)
    (book : Book) (ti : Nat) (t : Transaction) (bookId : String) (now : Int)
    (ht : s.transactions[ti]? = some t) (hr : t.isReturned = false) (j : String) :
    (s.closeLoan mi member bi book ti t bookId now).openCount j ≤ s.openCount j := by
  have hlt : ti < s.transactions.length := (List.getElem?_eq_some_iff.1 ht).1
  have hcl : (t.returnBook now).isReturned = true := by
    unfold Transaction.returnBook Transaction.calculateFine
    simp only [hr, Bool.not_false, if_true]
    split <;> rfl
  simp only [Library.openCount, Library.closeLoan]
  rw [List.countP_set _ _ _ _ hlt]
  simp [hcl]

/-- C7: when the reservation queue is not empty and its head names an item
other than `X`, a return of `X` that succeeds processes no reservation: the
queue is unchanged, the ledger keeps its length and no item gains an open
transaction, and `X` is left available, whatever the later queue entries
are. -/
theorem returnBook_head_only (s : Library) (b X : String) (now nowIssue : Int)
    (r : String × String) (rest : List (String × String))
    (o : Option (Except LibraryException IssueOutcome))
    (hq : s.bookReservations = r :: rest) (hne : r.2 ≠ X)
    (hok : (s.returnBook b X now nowIssue).2 = .ok o) :
    o = none
      ∧ (s.returnBook b X now nowIssue).1.bookReservations = r :: rest
      ∧ (s.returnBook b X now nowIssue).1.transactions.length = s.transactions.length
      ∧ (∀ j, (s.returnBook b X now nowIssue).1.openCount j ≤ s.openCount j)
      ∧ (∃ bi book, (s.returnBook b X now nowIssue).1.findBook X = some (bi, book)
          ∧ book.isAvailable = true) := by
  obtain ⟨mi, m, bi, book, ti, t, hm, hb, ht⟩ := returnBook_ok_inv hok
  have hq2 : ∀ r0 ∈ s.bookReservations.head?, r0.2 ≠ X := by
    intro r0 hr0
    simp [hq] at hr0
    subst hr0
    exact hne
  rw [returnBook_plain hm hb ht hq2] at hok ⊢
  have hts := findTransaction_some ht
  refine ⟨?_, hq, by simp [Library.closeLoan], ?_,
    ⟨bi, book.setAvailability true, ?_, rfl⟩⟩
  · simpa using hok.symm
  · exact openCount_closeLoan_le s mi m bi book ti t X now hts.1 hts.2.2.2
  · rw [findBook_eq] at hb ⊢
    exact firstMatch_set_hit hb (by simpa [Library.closeLoan, Book.setAvailability]
      using (firstMatch_some hb).2)

theorem returnBook_head_only_witness :
    sampleTwoReservations.bookReservations = [("M1", "B1"), ("M2", "B2")]
      ∧ (sampleTwoReservations.returnBook "M3" "B2" 9 10).2 = .ok none
      ∧ (sampleTwoReservations.returnBook "M3" "B2" 9 10).1.bookReservations =
          [("M1", "B1"), ("M2", "B2")] :=
  ⟨rfl, rfl,
    (returnBook_head_only sampleTwoReservations "M3" "B2" 9 10 ("M1", "B1") [("M2", "B2")]
      none rfl (by decide) rfl).2.1⟩

/-! ## The searches after a write through a pointer -/

theorem findBook_set {s : Library} {bookId : String} {bi : Nat} {book : Book}
    (hb : s.findBook bookId = some (bi, book)) (status : Bool) (id : String) :
    firstMatch (fun b => b.bookId == id) (s.books.set bi (book.setAvailability status)) =
      if id = bookId then some (bi, book.setAvailability status) else s.findBook id := by
  have hbs := findBook_some hb
  rw [findBook_eq] at hb
  by_cases h : id = bookId
  · subst h
    simp only [if_true]
    exact firstMatch_set_hit hb (by simpa [Book.setAvailability] using hbs.2)
  · simp only [h, if_false, findBook_eq]
    have hne : book.bookId ≠ id := by rw [hbs.2]; exact fun e => h e.symm
    exact firstMatch_set_miss hbs.1 (by simpa using hne)
      (by simpa [Book.setAvailability] using hne)

theorem findMember_set {s : Library} {memberId : String} {mi : Nat} {m : Member}
    (hm : s.findMember memberId = some (mi, m)) (held : List String) (id : String) :
    firstMatch (fun x => x.memberId == id) (s.members.set mi { m with issuedBooks := held }) =
      if id = memberId then some (mi, { m with issuedBooks := held })
      else s.findMember id := by
  have hms := findMember_some hm
  by_cases h : id = memberId
  · subst h
    simp only [if_true]
    exact firstMatch_set_hit hm (by simpa using hms.2)
  · simp only [h, if_false]
    have hne : m.memberId ≠ id := by rw [hms.2]; exact fun e => h e.symm
    exact firstMatch_set_miss hms.1 (by simpa using hne) (by simpa using hne)

theorem findBook_openLoan {s : Library} {memberId bookId : String} {mi : Nat} {m : Member}
    {bi : Nat} {book : Book} (hb : s.findBook bookId = some (bi, book)) (now : Int)
    (id : String) :
    (s.openLoan mi m bi book memberId bookId now).findBook id =
      if id = bookId then some (bi, book.setAvailability false) else s.findBook id := by
  rw [findBook_eq]
  exact findBook_set hb false id

theorem findBook_closeLoan {s : Library} {bookId : String} {mi : Nat} {m : Member}
    {bi : Nat} {book : Book} {ti : Nat} {t : Transaction}
    (hb : s.findBook bookId = some (bi, book)) (now : Int) (id : String) :
    (s.closeLoan mi m bi book ti t bookId now).findBook id =
      if id = bookId then some (bi, book.setAvailability true) else s.findBook id := by
  rw [findBook_eq]
  exact findBook_set hb true id

theorem findMember_openLoan {s : Library} {memberId bookId : String} {mi : Nat} {m : Member}
    {bi : Nat} {book : Book} (hm : s.findMember memberId = some (mi, m)) (now : Int)
    (id : String) :
    (s.openLoan mi m bi book memberId bookId now).findMember id =
      if id = memberId then some (mi, { m with issuedBooks := m.issuedBooks ++ [bookId] })
      else s.findMember id :=
  findMember_set hm _ id

theorem findMember_closeLoan {s : Library} {memberId bookId : String} {mi : Nat} {m : Member}
    {bi : Nat} {book : Book} {ti : Nat} {t : Transaction}
    (hm : s.findMember memberId = some (mi, m)) (now : Int) (id : String) :
    (s.closeLoan mi m bi book ti t bookId now).findMember id =
      if id = memberId then some (mi, m.returnBook bookId) else s.findMember id :=
  findMember_set hm _ id

/-! ## Every way a call can end -/

/-- The state after `issueBook` is the old state (an exception), the old state
with one more reservation, or the state of a successful issue. -/
theorem issueBook_cases (s : Library) (memberId bookId : String) (now : Int) :
    (∃ e, s.issueBook memberId bookId now = (s, .error e))
      ∨ (∃ mi m bi book, s.findMember memberId = some (mi, m)
          ∧ s.findBook bookId = some (bi, book) ∧ book.isAvailable = false
          ∧ s.issueBook memberId bookId now =
            (s.withReservations (s.bookReservations ++ [(memberId, bookId)]), .ok .queued))
      ∨ (∃ mi m bi book, s.findMember memberId = some (mi, m)
          ∧ s.findBook bookId = some (bi, book) ∧ book.isAvailable = true
          ∧ m.issuedBooks.length < m.maxBooksAllowed.toSizeT
          ∧ s.issueBook memberId bookId now =
            (s.openLoan mi m bi book memberId bookId now, .ok .issued)) := by
  cases hm : s.findMember memberId with
  | none => exact Or.inl ⟨_, issueBook_noMember hm⟩
  | some r1 =>
    obtain ⟨mi, m⟩ := r1
    cases hb : s.findBook bookId with
    | none => exact Or.inl ⟨_, issueBook_noBook hm hb⟩
    | some r2 =>
      obtain ⟨bi, book⟩ := r2
      cases ha : book.isAvailable with
      | false => exact Or.inr (Or.inl ⟨mi, m, bi, book, rfl, rfl, ha, issueBook_queued hm hb ha⟩)
      | true =>
        by_cases hl : m.issuedBooks.length ≥ m.maxBooksAllowed.toSizeT
        · exact Or.inl ⟨_, issueBook_limit hm hb ha hl⟩
        · exact Or.inr (Or.inr ⟨mi, m, bi, book, rfl, rfl, ha, by omega,
            issueBook_issued hm hb ha (by omega)⟩)

/-- The state after `returnBook` is the old state (an exception), the state
after the return proper, or that state with the head reservation popped and
the follow-on issue run on it. -/
theorem returnBook_cases (s : Library) (memberId bookId : String) (now nowIssue : Int) :
    (∃ e, s.returnBook memberId bookId now nowIssue = (s, .error e))
      ∨ (∃ mi m bi book ti t, s.findMember memberId = some (mi, m)
          ∧ s.findBook bookId = some (bi, book)
          ∧ s.findTransaction memberId bookId = some (ti, t)
          ∧ ((∀ r ∈ s.bookReservations.head?, r.2 ≠ bookId)
              ∧ s.returnBook memberId bookId now nowIssue =
                (s.closeLoan mi m bi book ti t bookId now, .ok none)
            ∨ ∃ r rest, s.bookReservations = r :: rest ∧ r.2 = bookId
              ∧ s.returnBook memberId bookId now nowIssue =
                ((Library.issueBook
                    ((s.closeLoan mi m bi book ti t bookId now).withReservations rest)
                    r.1 bookId nowIssue).1,
                  .ok (some (Library.issueBook
                    ((s.closeLoan mi m bi book ti t bookId now).withReservations rest)
                    r.1 bookId nowIssue).2)))) := by
  cases hm : s.findMember memberId with
  | none => exact Or.inl ⟨_, returnBook_noMember hm⟩
  | some r1 =>
    obtain ⟨mi, m⟩ := r1
    cases hb : s.findBook bookId with
    | none => exact Or.inl ⟨_, returnBook_noBook hm hb⟩
    | some r2 =>
      obtain ⟨bi, book⟩ := r2
      cases ht : s.findTransaction memberId bookId with
      | none => exact Or.inl ⟨_, returnBook_noTransaction hm hb ht⟩
      | some r3 =>
        obtain ⟨ti, t⟩ := r3
        refine Or.inr ⟨mi, m, bi, book, ti, t, rfl, rfl, rfl, ?_⟩
        cases hq : s.bookReservations with
        | nil =>
          have hq2 : ∀ r ∈ s.bookReservations.head?, r.2 ≠ bookId := by simp [hq]
          exact Or.inl ⟨by simp, returnBook_plain hm hb ht hq2⟩
        | cons r rest =>
          by_cases hr : r.2 = bookId
          · exact Or.inr ⟨r, rest, rfl, hr, returnBook_follow hm hb ht hq hr⟩
          · have hq2 : ∀ r0 ∈ s.bookReservations.head?, r0.2 ≠ bookId := by
              intro r0 hr0
              simp [hq] at hr0
              subst hr0
              exact hr
            exact Or.inl ⟨by simpa using hr, returnBook_plain hm hb ht hq2⟩

/-! ## Open transactions per item -/

theorem openCount_openLoan (s : Library) (mi : Nat) (m : Member) (bi : Nat) (book : Book)
    (memberId bookId : String) (now : Int) (id : String) :
    (s.openLoan mi m bi book memberId bookId now).openCount id =
      s.openCount id + if id = bookId then 1 else 0 := by
  simp only [Library.openCount, Library.openLoan, List.countP_append]
  by_cases h : id = bookId
  · subst h
    simp [List.countP_cons, Transaction.new]
  · have h2 : ¬ bookId = id := fun e => h e.symm
    simp [List.countP_cons, Transaction.new, h, h2]

theorem returnBook_isReturned (t : Transaction) (now : Int) :
    (t.returnBook now).isReturned = true := by
  unfold Transaction.returnBook Transaction.calculateFine
  cases hr : t.isReturned with
  | true => simp [hr]
  | false =>
    simp only [Bool.not_false, if_true]
    split <;> rfl

theorem openCount_closeLoan {s : Library} {memberId bookId : String} {ti : Nat}
    {t : Transaction} (ht : s.findTransaction memberId bookId = some (ti, t))
    (mi : Nat) (m : Member) (bi : Nat) (book : Book) (now : Int) (id : String) :
    (s.closeLoan mi m bi book ti t bookId now).openCount id
      + (if id = bookId then 1 else 0) = s.openCount id := by
  have hts := findTransaction_some ht
  obtain ⟨hlt, hget⟩ := List.getElem?_eq_some_iff.1 hts.1
  have hmem : t ∈ s.transactions := List.getElem?_mem hts.1
  simp only [Library.openCount, Library.closeLoan]
  rw [List.countP_set _ _ _ _ hlt, hget]
  simp only [returnBook_isReturned, hts.2.2.1, hts.2.2.2]
  by_cases h : id = bookId
  · subst h
    have hpos : 0 < List.countP (fun t => t.bookId == id && !t.isReturned) s.transactions :=
      List.countP_pos_iff.2 ⟨t, hmem, by simp [hts.2.2.1, hts.2.2.2]⟩
    simp
    omega
  · have h2 : ¬ bookId = id := fun e => h e.symm
    simp [h, h2]

/-! ## The loan invariant -/

theorem LoanInv_openLoan {s : Library} (hinv : s.LoanInv) {memberId bookId : String}
    {mi : Nat} {m : Member} {bi : Nat} {book : Book}
    (hb : s.findBook bookId = some (bi, book)) (ha : book.isAvailable = true) (now : Int) :
    (s.openLoan mi m bi book memberId bookId now).LoanInv := by
  intro id bj b1 h
  rw [findBook_openLoan hb] at h
  rw [openCount_openLoan]
  by_cases hid : id = bookId
  · subst hid
    simp only [if_true, Option.some.injEq, Prod.mk.injEq] at h
    obtain ⟨-, rfl⟩ := h
    have := hinv id bi book hb
    simp [ha] at this
    simp [this, Book.setAvailability]
  · simp only [hid, if_false] at h ⊢
    simpa using hinv id bj b1 h

theorem LoanInv_closeLoan {s : Library} (hinv : s.LoanInv) {memberId bookId : String}
    {mi : Nat} {m : Member} {bi : Nat} {book : Book} {ti : Nat} {t : Transaction}
    (hb : s.findBook bookId = some (bi, book))
    (ht : s.findTransaction memberId bookId = some (ti, t)) (now : Int) :
    (s.closeLoan mi m bi book ti t bookId now).LoanInv
      ∧ (s.closeLoan mi m bi book ti t bookId now).openCount bookId = 0 := by
  have hc := openCount_closeLoan ht mi m bi book now
  have h0 : (s.closeLoan mi m bi book ti t bookId now).openCount bookId = 0 := by
    have h1 := hc bookId
    have h2 := hinv bookId bi book hb
    simp only [if_true] at h1
    cases hav : book.isAvailable <;> simp [hav] at h2 <;> omega
  refine ⟨?_, h0⟩
  intro id bj b1 h
  rw [findBook_closeLoan hb] at h
  by_cases hid : id = bookId
  · subst hid
    simp only [if_true, Option.some.injEq, Prod.mk.injEq] at h
    obtain ⟨-, rfl⟩ := h
    simp [h0, Book.setAvailability]
  · simp only [hid, if_false] at h
    have h1 := hc id
    simp only [hid, if_false, Nat.add_zero] at h1
    rw [h1]
    exact hinv id bj b1 h

theorem LoanInv_issueBook {s : Library} (hinv : s.LoanInv) (memberId bookId : String)
    (now : Int) : (s.issueBook memberId bookId now).1.LoanInv := by
  rcases issueBook_cases s memberId bookId now with ⟨e, h⟩ | ⟨mi, m, bi, book, -, -, -, h⟩ |
    ⟨mi, m, bi, book, -, hb, ha, -, h⟩
  · rw [h]; exact hinv
  · rw [h]; exact hinv
  · rw [h]; exact LoanInv_openLoan hinv hb ha now

theorem LoanInv_returnBook {s : Library} (hinv : s.LoanInv) (memberId bookId : String)
    (now nowIssue : Int) : (s.returnBook memberId bookId now nowIssue).1.LoanInv := by
  rcases returnBook_cases s memberId bookId now nowIssue with ⟨e, h⟩ |
    ⟨mi, m, bi, book, ti, t, -, hb, ht, ⟨-, h⟩ | ⟨r, rest, -, -, h⟩⟩
  · rw [h]; exact hinv
  · rw [h]; exact (LoanInv_closeLoan hinv hb ht now).1
  · rw [h]
    have h1 : (s.closeLoan mi m bi book ti t bookId now).LoanInv :=
      (LoanInv_closeLoan hinv hb ht now).1
    have h2 : ((s.closeLoan mi m bi book ti t bookId now).withReservations rest).LoanInv := h1
    exact LoanInv_issueBook h2 _ _ _

theorem LoanInv_step {s : Library} (hinv : s.LoanInv) (c : Call) : (s.step c).LoanInv := by
  cases c with
  | issue m b now => exact LoanInv_issueBook hinv m b now
  | ret m b now nowIssue => exact LoanInv_returnBook hinv m b now nowIssue

theorem LoanInv_of_fresh {s : Library} (havail : ∀ b ∈ s.books, b.isAvailable = true)
    (hledger : s.transactions = []) : s.LoanInv := by
  intro id bi book h
  have hmem : book ∈ s.books := List.getElem?_mem (findBook_some h).1
  simp [Library.openCount, hledger, havail book hmem]

theorem LoanInv_reachable {s0 s : Library} (h0 : s0.LoanInv) (hr : Library.Reachable s0 s) :
    s.LoanInv := by
  induction hr with
  | init => exact h0
  | step s c _ ih => exact LoanInv_step ih c

/-! ## Identifiers never change -/

theorem map_set_same {α β : Type} (f : α → β) {l : List α} {k : Nat} {x v : α}
    (h : l[k]? = some x) (hv : f v = f x) : (l.set k v).map f = l.map f := by
  induction l generalizing k with
  | nil => simp
  | cons a l ih =>
    cases k with
    | zero =>
      simp at h
      subst h
      simp [hv]
    | succ k =>
      simp at h
      simp [ih h]

theorem bookIds_issueBook (s : Library) (memberId bookId : String) (now : Int) :
    (s.issueBook memberId bookId now).1.books.map Book.bookId = s.books.map Book.bookId := by
  rcases issueBook_cases s memberId bookId now with ⟨e, h⟩ | ⟨mi, m, bi, book, -, -, -, h⟩ |
    ⟨mi, m, bi, book, -, hb, -, -, h⟩
  · rw [h]
  · rw [h]
    rfl
  · rw [h]
    exact map_set_same Book.bookId (findBook_some hb).1 rfl

theorem bookIds_returnBook (s : Library) (memberId bookId : String) (now nowIssue : Int) :
    (s.returnBook memberId bookId now nowIssue).1.books.map Book.bookId =
      s.books.map Book.bookId := by
  rcases returnBook_cases s memberId bookId now nowIssue with ⟨e, h⟩ |
    ⟨mi, m, bi, book, ti, t, -, hb, -, ⟨-, h⟩ | ⟨r, rest, -, -, h⟩⟩
  · rw [h]
  · rw [h]
    exact map_set_same Book.bookId (findBook_some hb).1 rfl
  · rw [h, bookIds_issueBook]
    exact map_set_same Book.bookId (findBook_some hb).1 rfl

theorem bookIds_reachable {s0 s : Library} (hr : Library.Reachable s0 s) :
    s.books.map Book.bookId = s0.books.map Book.bookId := by
  induction hr with
  | init => rfl
  | step s c _ ih =>
    rw [← ih]
    cases c with
    | issue m b now => exact bookIds_issueBook s m b now
    | ret m b now nowIssue => exact bookIds_returnBook s m b now nowIssue

/-- With pairwise distinct keys, the search for the key of a list element
returns that element. -/
theorem firstMatch_of_nodup {α : Type} (key : α → String) {l : List α}
    (hnd : (l.map key).Nodup) {x : α} (hx : x ∈ l) :
    ∃ k, firstMatch (fun y => key y == key x) l = some (k, x) := by
  induction l with
  | nil => simp at hx
  | cons a l ih =>
    simp only [List.map_cons, List.nodup_cons] at hnd
    by_cases hk : key a = key x
    · have hax : x = a := by
        rcases List.mem_cons.1 hx with h | h
        · exact h
        · exact absurd (hk ▸ List.mem_map_of_mem key h) hnd.1
      subst hax
      exact ⟨0, by simp [firstMatch]⟩
    · have hxl : x ∈ l := by
        rcases List.mem_cons.1 hx with h | h
        · exact absurd (h ▸ rfl) hk
        · exact h
      obtain ⟨k, hk2⟩ := ih hnd.2 hxl
      exact ⟨k + 1, by simp [firstMatch, hk, hk2]⟩

/-- C1: from a freshly loaded catalog (unique item identifiers, every item
available, empty ledger; the queue may hold anything), after any sequence of `issueBook` and
`returnBook` calls, throwing or not, every item has exactly one unreturned
ledger transaction referencing its identifier when it is unavailable and none
when it is available. -/
theorem availability_invariant (s0 s : Library)
    (hids : (s0.books.map Book.bookId).Nodup)
    (havail : ∀ b ∈ s0.books, b.isAvailable = true)
    (hledger : s0.transactions = [])
    (hr : Library.Reachable s0 s) :
    ∀ b ∈ s.books,
      s.transactions.countP (fun t => t.bookId == b.bookId && !t.isReturned) =
        if b.isAvailable then 0 else 1 := by
  intro b hb
  have hinv : s.LoanInv := LoanInv_reachable (LoanInv_of_fresh havail hledger) hr
  have hnd : (s.books.map Book.bookId).Nodup := by rw [bookIds_reachable hr]; exact hids
  obtain ⟨k, hk⟩ := firstMatch_of_nodup Book.bookId hnd hb
  rw [← findBook_eq] at hk
  exact hinv b.bookId k b hk

theorem reachable_run (s0 : Library) (calls : List Call) :
    Library.Reachable s0 (s0.run calls) := by
  have key : ∀ (cs : List Call) (s : Library), Library.Reachable s0 s →
      Library.Reachable s0 (s.run cs) := by
    intro cs
    induction cs with
    | nil => intro s hs; exact hs
    | cons c cs ih => intro s hs; exact ih (s.step c) (.step s c hs)
  exact key calls s0 .init

theorem availability_invariant_witness :
    Library.Reachable sample sampleTwoReservations
      ∧ ∀ b ∈ sampleTwoReservations.books,
          sampleTwoReservations.transactions.countP
            (fun t => t.bookId == b.bookId && !t.isReturned) =
          if b.isAvailable then 0 else 1 :=
  ⟨reachable_run sample _,
    availability_invariant sample sampleTwoReservations (by decide) (by decide) rfl
      (reachable_run sample _)⟩

/-! ## The holdings invariant -/

theorem filter_set_miss {α : Type} {q : α → Bool} {l : List α} {k : Nat} {x v : α}
    (h : l[k]? = some x) (hx : q x = false) (hv : q v = false) :
    (l.set k v).filter q = l.filter q := by
  induction l generalizing k with
  | nil => simp
  | cons a l ih =>
    cases k with
    | zero =>
      simp at h
      subst h
      simp [List.filter_cons, hx, hv]
    | succ k =>
      simp at h
      simp [List.filter_cons, ih h]

/-- Closing the first open transaction of a member for an item erases the first
occurrence of the item from the items of the member's open transactions. -/
theorem held_after_close {l : List Transaction} {memberId bookId : String} {ti : Nat}
    {t v : Transaction}
    (ht : firstMatch
      (fun t => t.memberId == memberId && t.bookId == bookId && !t.isReturned) l = some (ti, t))
    (hv : v.isReturned = true) :
    ((l.set ti v).filter (fun t => t.memberId == memberId && !t.isReturned)).map
        Transaction.bookId =
      ((l.filter (fun t => t.memberId == memberId && !t.isReturned)).map
        Transaction.bookId).erase bookId := by
  induction l generalizing ti with
  | nil => simp [firstMatch] at ht
  | cons a l ih =>
    unfold firstMatch at ht
    by_cases ha : (a.memberId == memberId && a.bookId == bookId && !a.isReturned) = true
    · simp only [ha, if_true, Option.some.injEq, Prod.mk.injEq] at ht
      obtain ⟨rfl, rfl⟩ := ht
      simp only [Bool.and_eq_true, beq_iff_eq, Bool.not_eq_true'] at ha
      simp [List.filter_cons, hv, ha.1.1, ha.1.2, ha.2]
    · simp only [ha] at ht
      simp only [Bool.false_eq_true, if_false, Option.map_eq_some', Prod.mk.injEq] at ht
      obtain ⟨r, hr, rfl, rfl⟩ := ht
      have ih1 := @ih r.1 hr
      simp only [List.set_cons_succ, List.filter_cons]
      by_cases hq : (a.memberId == memberId && !a.isReturned) = true
      · have hne : ¬ a.bookId = bookId := by
          intro hb
          apply ha
          simp only [Bool.and_eq_true, beq_iff_eq, Bool.not_eq_true'] at hq ⊢
          exact ⟨⟨hq.1, hb⟩, hq.2⟩
        simp only [hq, if_true, List.map_cons]
        rw [List.erase_cons_tail (by simpa using hne), ih1]
      · simp only [hq]
        simpa using ih1

theorem returnBook_memberId (t : Transaction) (now : Int) :
    (t.returnBook now).memberId = t.memberId
      ∧ (t.returnBook now).bookId = t.bookId
      ∧ (t.returnBook now).transactionId = t.transactionId
      ∧ (t.returnBook now).issueDate = t.issueDate := by
  unfold Transaction.returnBook Transaction.calculateFine
  cases hr : t.isReturned with
  | true => simp
  | false =>
    simp only [Bool.not_false, if_true]
    split <;> simp

theorem HeldInv_openLoan {s : Library} (hinv : s.HeldInv) {memberId bookId : String}
    {mi : Nat} {m : Member} {bi : Nat} {book : Book}
    (hm : s.findMember memberId = some (mi, m)) (now : Int) :
    (s.openLoan mi m bi book memberId bookId now).HeldInv := by
  intro id mj m1 h
  rw [findMember_openLoan hm] at h
  by_cases hid : id = memberId
  · subst hid
    simp only [if_true, Option.some.injEq, Prod.mk.injEq] at h
    obtain ⟨-, rfl⟩ := h
    simp [Library.openLoan, List.filter_append, List.filter_cons, Transaction.new,
      hinv id mi m hm]
  · simp only [hid, if_false] at h
    have h2 : ¬ memberId = id := fun e => hid e.symm
    simp [Library.openLoan, List.filter_append, List.filter_cons, Transaction.new, h2,
      hinv id mj m1 h]

theorem HeldInv_closeLoan {s : Library} (hinv : s.HeldInv) {memberId bookId : String}
    {mi : Nat} {m : Member} {bi : Nat} {book : Book} {ti : Nat} {t : Transaction}
    (hm : s.findMember memberId = some (mi, m))
    (ht : s.findTransaction memberId bookId = some (ti, t)) (now : Int) :
    (s.closeLoan mi m bi book ti t bookId now).HeldInv := by
  have hts := findTransaction_some ht
  intro id mj m1 h
  rw [findMember_closeLoan hm] at h
  by_cases hid : id = memberId
  · subst hid
    simp only [if_true, Option.some.injEq, Prod.mk.injEq] at h
    obtain ⟨-, rfl⟩ := h
    simp only [Library.closeLoan, Member.returnBook]
    rw [held_after_close ht (returnBook_isReturned t now), hinv id mi m hm]
  · simp only [hid, if_false] at h
    have h2 : ¬ memberId = id := fun e => hid e.symm
    simp only [Library.closeLoan]
    rw [filter_set_miss hts.1 (by simp [hts.2.1, h2])
      (by simp [returnBook_isReturned])]
    exact hinv id mj m1 h

theorem HeldInv_issueBook {s : Library} (hinv : s.HeldInv) (memberId bookId : String)
    (now : Int) : (s.issueBook memberId bookId now).1.HeldInv := by
  rcases issueBook_cases s memberId bookId now with ⟨e, h⟩ | ⟨mi, m, bi, book, -, -, -, h⟩ |
    ⟨mi, m, bi, book, hm, -, -, -, h⟩
  · rw [h]; exact hinv
  · rw [h]; exact hinv
  · rw [h]; exact HeldInv_openLoan hinv hm now

theorem HeldInv_returnBook {s : Library} (hinv : s.HeldInv) (memberId bookId : String)
    (now nowIssue : Int) : (s.returnBook memberId bookId now nowIssue).1.HeldInv := by
  rcases returnBook_cases s memberId bookId now nowIssue with ⟨e, h⟩ |
    ⟨mi, m, bi, book, ti, t, hm, -, ht, ⟨-, h⟩ | ⟨r, rest, -, -, h⟩⟩
  · rw [h]; exact hinv
  · rw [h]; exact HeldInv_closeLoan hinv hm ht now
  · rw [h]
    have h1 : (s.closeLoan mi m bi book ti t bookId now).HeldInv :=
      HeldInv_closeLoan hinv hm ht now
    have h2 : ((s.closeLoan mi m bi book ti t bookId now).withReservations rest).HeldInv := h1
    exact HeldInv_issueBook h2 _ _ _

theorem HeldInv_reachable {s0 s : Library} (h0 : s0.HeldInv) (hr : Library.Reachable s0 s) :
    s.HeldInv := by
  induction hr with
  | init => exact h0
  | step s c _ ih =>
    cases c with
    | issue m b now => exact HeldInv_issueBook ih m b now
    | ret m b now nowIssue => exact HeldInv_returnBook ih m b now nowIssue

/-! ## Unreturned transactions carry no fine -/

theorem FineInv_openLoan {s : Library} (hinv : s.FineInv) (mi : Nat) (m : Member) (bi : Nat)
    (book : Book) (memberId bookId : String) (now : Int) :
    (s.openLoan mi m bi book memberId bookId now).FineInv := by
  intro t ht hr
  simp only [Library.openLoan, List.mem_append, List.mem_singleton] at ht
  rcases ht with ht | rfl
  · exact hinv t ht hr
  · exact ⟨rfl, rfl⟩

theorem FineInv_closeLoan {s : Library} (hinv : s.FineInv) (mi : Nat) (m : Member) (bi : Nat)
    (book : Book) (ti : Nat) (t : Transaction) (bookId : String) (now : Int) :
    (s.closeLoan mi m bi book ti t bookId now).FineInv := by
  intro y hy hr
  simp only [Library.closeLoan] at hy
  rcases List.mem_or_eq_of_mem_set hy with hy | rfl
  · exact hinv y hy hr
  · rw [returnBook_isReturned] at hr
    cases hr

theorem FineInv_issueBook {s : Library} (hinv : s.FineInv) (memberId bookId : String)
    (now : Int) : (s.issueBook memberId bookId now).1.FineInv := by
  rcases issueBook_cases s memberId bookId now with ⟨e, h⟩ | ⟨mi, m, bi, book, -, -, -, h⟩ |
    ⟨mi, m, bi, book, -, -, -, -, h⟩
  · rw [h]; exact hinv
  · rw [h]; exact hinv
  · rw [h]; exact FineInv_openLoan hinv _ _ _ _ _ _ now

theorem FineInv_returnBook {s : Library} (hinv : s.FineInv) (memberId bookId : String)
    (now nowIssue : Int) : (s.returnBook memberId bookId now nowIssue).1.FineInv := by
  rcases returnBook_cases s memberId bookId now nowIssue with ⟨e, h⟩ |
    ⟨mi, m, bi, book, ti, t, -, -, -, ⟨-, h⟩ | ⟨r, rest, -, -, h⟩⟩
  · rw [h]; exact hinv
  · rw [h]; exact FineInv_closeLoan hinv _ _ _ _ _ _ _ now
  · rw [h]
    have h1 : (s.closeLoan mi m bi book ti t bookId now).FineInv :=
      FineInv_closeLoan hinv _ _ _ _ _ _ _ now
    have h2 : ((s.closeLoan mi m bi book ti t bookId now).withReservations rest).FineInv := h1
    exact FineInv_issueBook h2 _ _ _

theorem FineInv_reachable {s0 s : Library} (h0 : s0.FineInv) (hr : Library.Reachable s0 s) :
    s.FineInv := by
  induction hr with
  | init => exact h0
  | step s c _ ih =>
    cases c with
    | issue m b now => exact FineInv_issueBook ih m b now
    | ret m b now nowIssue => exact FineInv_returnBook ih m b now nowIssue

/-- The three invariants hold in every state reachable from a freshly loaded
catalog. -/
theorem invariants_of_fresh {s0 s : Library} (h0 : s0.Fresh) (hr : Library.Reachable s0 s) :
    s.LoanInv ∧ s.HeldInv ∧ s.FineInv := by
  obtain ⟨hb, hm, hl, -, -⟩ := h0
  refine ⟨LoanInv_reachable (LoanInv_of_fresh hb hl) hr, HeldInv_reachable ?_ hr,
    FineInv_reachable ?_ hr⟩
  · intro id mi m h
    have hmem : m ∈ s0.members := List.getElem?_mem (findMember_some h).1
    simp [hl, hm m hmem]
  · intro t ht
    simp [hl] at ht

/-- A return whose follow-on issue finds the reserving member under the limit:
the item goes straight to that member. -/
theorem returnBook_follow_issued {s : Library} {memberId bookId : String}
    {now nowIssue : Int} {mi : Nat} {member : Member} {bi : Nat} {book : Book}
    {ti : Nat} {t : Transaction} {r : String × String} {rest : List (String × String)}
    {ri : Nat} {rm : Member}
    (hm : s.findMember memberId = some (mi, member))
    (hb : s.findBook bookId = some (bi, book))
    (ht : s.findTransaction memberId bookId = some (ti, t))
    (hq : s.bookReservations = r :: rest) (hr : r.2 = bookId)
    (hrm : (s.closeLoan mi member bi book ti t bookId now).findMember r.1 = some (ri, rm))
    (hl : rm.issuedBooks.length < rm.maxBooksAllowed.toSizeT) :
    s.returnBook memberId bookId now nowIssue =
      (((s.closeLoan mi member bi book ti t bookId now).withReservations rest).openLoan
          ri rm bi (book.setAvailability true) r.1 bookId nowIssue,
        .ok (some (.ok .issued))) := by
  have hcb : ((s.closeLoan mi member bi book ti t bookId now).withReservations rest).findBook
      bookId = some (bi, book.setAvailability true) := by
    rw [withReservations_findBook, findBook_closeLoan hb, if_pos rfl]
  have hI : ((s.closeLoan mi member bi book ti t bookId now).withReservations rest).issueBook
      r.1 bookId nowIssue = _ :=
    issueBook_issued (by rw [withReservations_findMember]; exact hrm) hcb rfl hl
  rw [returnBook_follow hm hb ht hq hr, hI]

/-! ## The end-to-end scenario -/

/-- C6: in a catalog with empty ledger and queue whose borrowers hold nothing,
with item `I1` available, borrower `M1` of limit 1 and a second borrower `M2`
under their limit: `issueBook(M1, I1)` succeeds and `I1` is unavailable;
`issueBook(M2, I1)` is queued and the queue is `[(M2, I1)]`;
`returnBook(M1, I1)` succeeds and its follow-on issue to `M2` succeeds.  In the
final state `I1` is unavailable, the only open transaction for `I1` is one of
`M2`, `M1` holds nothing, `M2` holds `[I1]` and the queue is empty. -/
theorem end_to_end (s : Library) (M1 M2 I1 : String) (t1 t2 t3 t4 : Int)
    (i1 : Nat) (m1 : Member) (i2 : Nat) (m2 : Member) (bi : Nat) (book : Book)
    (hm1 : s.findMember M1 = some (i1, m1)) (hmax1 : m1.maxBooksAllowed.val = 1)
    (hm2 : s.findMember M2 = some (i2, m2)) (hne : M1 ≠ M2)
    (hmax2 : (m2.issuedBooks.length : Int) < m2.maxBooksAllowed.val)
    (hheld : ∀ m ∈ s.members, m.issuedBooks = [])
    (hb : s.findBook I1 = some (bi, book)) (ha : book.isAvailable = true)
    (hl : s.transactions = []) (hq : s.bookReservations = []) :
    (s.issueBook M1 I1 t1).2 = .ok .issued
      ∧ (∃ b1, (s.issueBook M1 I1 t1).1.findBook I1 = some (bi, b1) ∧ b1.isAvailable = false)
      ∧ ((s.issueBook M1 I1 t1).1.issueBook M2 I1 t2).2 = .ok .queued
      ∧ ((s.issueBook M1 I1 t1).1.issueBook M2 I1 t2).1.bookReservations = [(M2, I1)]
      ∧ (((s.issueBook M1 I1 t1).1.issueBook M2 I1 t2).1.returnBook M1 I1 t3 t4).2 =
          .ok (some (.ok .issued))
      ∧ (∃ b3, (((s.issueBook M1 I1 t1).1.issueBook M2 I1 t2).1.returnBook M1 I1 t3 t4).1.findBook
            I1 = some (bi, b3) ∧ b3.isAvailable = false)
      ∧ (∃ t,
          (((s.issueBook M1 I1 t1).1.issueBook M2 I1 t2).1.returnBook M1 I1 t3
            t4).1.transactions.filter (fun t => t.bookId == I1 && !t.isReturned) = [t]
          ∧ t.memberId = M2)
      ∧ (∃ m, (((s.issueBook M1 I1 t1).1.issueBook M2 I1 t2).1.returnBook M1 I1 t3
            t4).1.findMember M1 = some (i1, m) ∧ m.issuedBooks = [])
      ∧ (∃ m, (((s.issueBook M1 I1 t1).1.issueBook M2 I1 t2).1.returnBook M1 I1 t3
            t4).1.findMember M2 = some (i2, m) ∧ m.issuedBooks = [I1])
      ∧ (((s.issueBook M1 I1 t1).1.issueBook M2 I1 t2).1.returnBook M1 I1 t3
            t4).1.bookReservations = [] := by
  have hne2 : ¬ M2 = M1 := fun e => hne e.symm
  have hh1 : m1.issuedBooks = [] := hheld m1 (List.getElem?_mem (findMember_some hm1).1)
  have hh2 : m2.issuedBooks = [] := hheld m2 (List.getElem?_mem (findMember_some hm2).1)
  -- first call: issue to M1
  have hlim1 : m1.issuedBooks.length < m1.maxBooksAllowed.toSizeT := by
    rw [toSizeT_of_nonneg (by omega), hh1, hmax1]
    decide
  have hlim2 : m2.issuedBooks.length < m2.maxBooksAllowed.toSizeT := by
    rw [toSizeT_of_nonneg (by omega)]
    omega
  have hA : s.issueBook M1 I1 t1 = _ := issueBook_issued hm1 hb ha hlim1
  have hA2 : (s.openLoan i1 m1 bi book M1 I1 t1).findMember M2 = some (i2, m2) := by
    rw [findMember_openLoan hm1, if_neg hne2, hm2]
  have hA1 : (s.openLoan i1 m1 bi book M1 I1 t1).findMember M1 =
      some (i1, { m1 with issuedBooks := m1.issuedBooks ++ [I1] }) := by
    rw [findMember_openLoan hm1, if_pos rfl]
  have hAb : (s.openLoan i1 m1 bi book M1 I1 t1).findBook I1 =
      some (bi, book.setAvailability false) := by
    rw [findBook_openLoan hb, if_pos rfl]
  have hAt : (s.openLoan i1 m1 bi book M1 I1 t1).findTransaction M1 I1 =
      some (0, Transaction.new ("T" ++ toString (s.nextId + 1)) M1 I1 t1) := by
    simp [Library.findTransaction, Library.openLoan, hl, firstMatch, Transaction.new]
  have hAq : (s.openLoan i1 m1 bi book M1 I1 t1).bookReservations = [] := hq
  -- second call: M2 is queued
  have hB : (s.openLoan i1 m1 bi book M1 I1 t1).issueBook M2 I1 t2 = _ :=
    issueBook_queued hA2 hAb rfl
  rw [hAq, List.nil_append] at hB
  -- third call: the return pops the reservation and issues to M2
  have hC : ((s.openLoan i1 m1 bi book M1 I1 t1).withReservations [(M2, I1)]).returnBook
      M1 I1 t3 t4 = _ :=
    returnBook_follow_issued (r := (M2, I1))
    hA1 hAb hAt rfl rfl
    ((findMember_closeLoan
      (s := (s.openLoan i1 m1 bi book M1 I1 t1).withReservations [(M2, I1)])
      hA1 t3 M2).trans (by rw [if_neg hne2]; exact hA2)) hlim2
  rw [hA]
  simp only []
  rw [hB]
  simp only []
  rw [hC]
  refine ⟨trivial, ⟨_, hAb, rfl⟩, trivial, rfl, rfl, ⟨(book.setAvailability false).setAvailability
    true |>.setAvailability false, ?_, rfl⟩, ?_, ?_, ?_, rfl⟩
  · rw [findBook_openLoan (by
      rw [withReservations_findBook]
      exact (findBook_closeLoan
        (s := (s.openLoan i1 m1 bi book M1 I1 t1).withReservations [(M2, I1)])
        hAb t3 I1).trans (by rw [if_pos rfl])), if_pos rfl]
  · refine ⟨Transaction.new ("T" ++ toString (s.nextId + 1 + 1)) M2 I1 t4, ?_, rfl⟩
    simp [Library.openLoan, Library.closeLoan, hl, List.filter_cons, returnBook_isReturned,
      Transaction.new]
  · refine ⟨_, (findMember_openLoan (by
      rw [withReservations_findMember]
      exact (findMember_closeLoan
        (s := (s.openLoan i1 m1 bi book M1 I1 t1).withReservations [(M2, I1)])
        hA1 t3 M2).trans (by rw [if_neg hne2]; exact hA2)) t4 M1).trans (by
        rw [if_neg hne, withReservations_findMember]
        exact (findMember_closeLoan
          (s := (s.openLoan i1 m1 bi book M1 I1 t1).withReservations [(M2, I1)])
          hA1 t3 M1).trans (by rw [if_pos rfl])), ?_⟩
    simp [Member.returnBook, hh1]
  · refine ⟨_, (findMember_openLoan (by
      rw [withReservations_findMember]
      exact (findMember_closeLoan
        (s := (s.openLoan i1 m1 bi book M1 I1 t1).withReservations [(M2, I1)])
        hA1 t3 M2).trans (by rw [if_neg hne2]; exact hA2)) t4 M2).trans (by rw [if_pos rfl]), ?_⟩
    simp [hh2]

theorem end_to_end_witness :
    sample.findMember "M1" = some (0, Member.new "M1" "n1" "x1" int1)
      ∧ sample.findMember "M2" = some (1, Member.new "M2" "n2" "x2" int3)
      ∧ sample.findBook "B1" = some (0, Book.new "B1" "t1" "a1" "c1")
      ∧ (((sample.issueBook "M1" "B1" 1).1.issueBook "M2" "B1" 2).1.returnBook "M1" "B1" 3
          4).1.bookReservations = [] :=
  ⟨rfl, rfl, rfl,
    (end_to_end sample "M1" "M2" "B1" 1 2 3 4 0 _ 1 _ 0 _ rfl rfl rfl (by decide) (by decide)
      (by decide) rfl rfl rfl rfl).2.2.2.2.2.2.2.2.2⟩

/-! ## A follow-on issue that fails -/

theorem issueBook_error_state {s : Library} {memberId bookId : String} {now : Int}
    {e : LibraryException} (h : (s.issueBook memberId bookId now).2 = .error e) :
    s.issueBook memberId bookId now = (s, .error e) := by
  rcases issueBook_cases s memberId bookId now with ⟨e1, h1⟩ | ⟨mi, m, bi, book, -, -, -, h1⟩ |
    ⟨mi, m, bi, book, -, -, -, -, h1⟩
  · rw [h1] at h ⊢
    simp only [Except.error.injEq] at h
    rw [h]
  · rw [h1] at h; simp at h
  · rw [h1] at h; simp at h

theorem not_held_of_openCount_zero {s : Library} (hinv : s.HeldInv) {id : String} {mi : Nat}
    {m : Member} (hm : s.findMember id = some (mi, m)) {i : String}
    (h0 : s.openCount i = 0) : i ∉ m.issuedBooks := by
  rw [hinv id mi m hm]
  intro hmem
  obtain ⟨t, ht, hti⟩ := List.mem_map.1 hmem
  rw [List.mem_filter] at ht
  have hz := List.countP_eq_zero.1 h0 t ht.1
  simp only [Bool.and_eq_true, beq_iff_eq, Bool.not_eq_true', not_and,
    Bool.not_eq_false] at ht hz
  have := hz hti
  rw [ht.2.2] at this
  cases this

/-- C8: in a state reachable from a freshly loaded catalog, let
`returnBook(b, i)` find the borrower, the item and an open transaction, and
let the queue head be a reservation `(r, i)` whose follow-on issue (the call
`issueBook(r, i)` made after the return proper and the pop) throws `e`.  Then
`returnBook` does not throw and reports the caught exception; the transaction
stays closed with return time `now` and its fine (the fine of the policy when
issue and return are less than `2^31` days apart), and the ledger holds
nothing new; `i` is absent from the held items of `b`; `i` is available;
the head reservation is gone from the queue. -/
theorem returnBook_follow_failure (s0 s : Library) (h0 : s0.Fresh)
    (hreach : Library.Reachable s0 s) (b i r : String) (rest : List (String × String))
    (now nowIssue : Int) (mi : Nat) (m : Member) (bi : Nat) (book : Book) (ti : Nat)
    (t : Transaction) (e : LibraryException)
    (hm : s.findMember b = some (mi, m)) (hb : s.findBook i = some (bi, book))
    (ht : s.findTransaction b i = some (ti, t))
    (hq : s.bookReservations = (r, i) :: rest)
    (hfail : (((s.closeLoan mi m bi book ti t i now).withReservations rest).issueBook
      r i nowIssue).2 = .error e) :
    (s.returnBook b i now nowIssue).2 = .ok (some (.error e))
      ∧ (∃ f, (s.returnBook b i now nowIssue).1.transactions =
            s.transactions.set ti { t with returnDate := now, isReturned := true, fine := f }
          ∧ (DaysFit t.issueDate now → f = finePolicy t.issueDate now))
      ∧ (∃ m1, (s.returnBook b i now nowIssue).1.findMember b = some (mi, m1)
          ∧ i ∉ m1.issuedBooks)
      ∧ (∃ b1, (s.returnBook b i now nowIssue).1.findBook i = some (bi, b1)
          ∧ b1.isAvailable = true)
      ∧ (s.returnBook b i now nowIssue).1.bookReservations = rest := by
  obtain ⟨hloan, hheld, hfine⟩ := invariants_of_fresh h0 hreach
  have hts := findTransaction_some ht
  have hF : s.returnBook b i now nowIssue = _ := returnBook_follow hm hb ht hq rfl
  have hI := issueBook_error_state hfail
  simp only [] at hF
  rw [hI] at hF
  rw [hF]
  have hcm : (s.closeLoan mi m bi book ti t i now).findMember b = some (mi, m.returnBook i) := by
    rw [findMember_closeLoan hm, if_pos rfl]
  refine ⟨rfl, ?_, ⟨_, hcm, ?_⟩, ⟨book.setAvailability true, ?_, rfl⟩, rfl⟩
  · obtain ⟨f, hf1, hf2⟩ :=
      returnBook_stored t now hts.2.2.2 (hfine t (List.getElem?_mem hts.1) hts.2.2.2).1
    refine ⟨f, ?_, hf2⟩
    show (s.closeLoan mi m bi book ti t i now).transactions = _
    simp only [Library.closeLoan]
    rw [hf1]
  · exact not_held_of_openCount_zero (HeldInv_closeLoan hheld hm ht now) hcm
      (LoanInv_closeLoan hloan hb ht now).2
  · show (s.closeLoan mi m bi book ti t i now).findBook i = _
    rw [findBook_closeLoan hb, if_pos rfl]

theorem returnBook_follow_failure_witness :
    sample.Fresh ∧ Library.Reachable sample sampleAtLimit
      ∧ sampleAtLimit.bookReservations = [("M1", "B1")]
      ∧ (sampleAtLimit.returnBook "M3" "B1" 8 9).2 =
          .ok (some (.error (.maxIssueLimit "M1"))) :=
  ⟨by decide, reachable_run sample _, rfl,
    (returnBook_follow_failure sample sampleAtLimit (by decide) (reachable_run sample _)
      "M3" "B1" "M1" [] 8 9 2 _ 0 _ 0 _ (.maxIssueLimit "M1") rfl rfl rfl rfl rfl).1⟩

/-! ## Returning twice -/

theorem memberIds_issueBook (s : Library) (memberId bookId : String) (now : Int) :
    (s.issueBook memberId bookId now).1.members.map Member.memberId =
      s.members.map Member.memberId := by
  rcases issueBook_cases s memberId bookId now with ⟨e, h⟩ | ⟨mi, m, bi, book, -, -, -, h⟩ |
    ⟨mi, m, bi, book, hm, -, -, -, h⟩
  · rw [h]
  · rw [h]
    rfl
  · rw [h]
    exact map_set_same Member.memberId (findMember_some hm).1 rfl

theorem memberIds_returnBook (s : Library) (memberId bookId : String) (now nowIssue : Int) :
    (s.returnBook memberId bookId now nowIssue).1.members.map Member.memberId =
      s.members.map Member.memberId := by
  rcases returnBook_cases s memberId bookId now nowIssue with ⟨e, h⟩ |
    ⟨mi, m, bi, book, ti, t, hm, -, -, ⟨-, h⟩ | ⟨r, rest, -, -, h⟩⟩
  · rw [h]
  · rw [h]
    exact map_set_same Member.memberId (findMember_some hm).1 rfl
  · rw [h, memberIds_issueBook]
    exact map_set_same Member.memberId (findMember_some hm).1 rfl

theorem firstMatch_isSome_iff {α : Type} (key : α → String) (id : String) (l : List α) :
    (firstMatch (fun x => key x == id) l).isSome = true ↔ id ∈ l.map key := by
  cases hf : firstMatch (fun x => key x == id) l with
  | none =>
    rw [firstMatch_eq_none] at hf
    simp only [Option.isSome_none, Bool.false_eq_true, List.mem_map, false_iff, not_exists,
      not_and]
    intro x hx hk
    have := hf x hx
    simp [hk] at this
  | some r =>
    obtain ⟨k, x⟩ := r
    have h1 := firstMatch_some hf
    simp only [Option.isSome_some, List.mem_map, true_iff]
    exact ⟨x, List.getElem?_mem h1.1, by simpa using h1.2⟩

theorem findMember_isSome_iff (s : Library) (id : String) :
    (s.findMember id).isSome = true ↔ id ∈ s.members.map Member.memberId :=
  firstMatch_isSome_iff Member.memberId id s.members

theorem findBook_isSome_iff (s : Library) (id : String) :
    (s.findBook id).isSome = true ↔ id ∈ s.books.map Book.bookId := by
  rw [findBook_eq]
  exact firstMatch_isSome_iff Book.bookId id s.books

theorem findTransaction_eq_none_iff (s : Library) (b i : String) :
    s.findTransaction b i = none ↔
      ∀ t ∈ s.transactions, ¬ (t.memberId = b ∧ t.bookId = i ∧ t.isReturned = false) := by
  unfold Library.findTransaction
  rw [firstMatch_eq_none]
  constructor
  · intro h t ht hcon
    have := h t ht
    simp [hcon.1, hcon.2.1, hcon.2.2] at this
  · intro h t ht
    have := h t ht
    cases hr : t.isReturned <;> simp_all

theorem no_open_of_openCount_zero {s : Library} {i : String} (h0 : s.openCount i = 0) :
    ∀ t ∈ s.transactions, ¬ (t.bookId = i ∧ t.isReturned = false) := by
  intro t ht hcon
  have hz := List.countP_eq_zero.1 h0 t ht
  simp [hcon.1, hcon.2] at hz

/-- After the return proper no open transaction references the item; a
follow-on issue can only add one for the reserving member. -/
theorem no_open_after_follow {c : Library} {i : String} (h0 : c.openCount i = 0)
    (rest : List (String × String)) (r b : String) (hrb : r ≠ b) (nowIssue : Int) :
    ∀ t ∈ ((c.withReservations rest).issueBook r i nowIssue).1.transactions,
      ¬ (t.memberId = b ∧ t.bookId = i ∧ t.isReturned = false) := by
  have hc := no_open_of_openCount_zero h0
  rcases issueBook_cases (c.withReservations rest) r i nowIssue with ⟨e, h⟩ |
    ⟨mi, m, bi, book, -, -, -, h⟩ | ⟨mi, m, bi, book, -, -, -, -, h⟩
  · rw [h]
    exact fun t ht hcon => hc t ht hcon.2
  · rw [h]
    exact fun t ht hcon => hc t ht hcon.2
  · rw [h]
    intro t ht hcon
    simp only [Library.openLoan, withReservations_transactions, List.mem_append,
      List.mem_singleton] at ht
    rcases ht with ht | rfl
    · exact hc t ht hcon.2
    · exact hrb hcon.1

/-- C9 as stated fails: `M2` holds `B1` and has reserved it as well.  The first
`returnBook(M2, B1)` succeeds and its follow-on issue gives `B1` back to `M2`;
the second `returnBook(M2, B1)` succeeds too and changes the ledger. -/
theorem double_return_counterexample :
    sample.Fresh ∧ Library.Reachable sample sampleSelfReserved
      ∧ (sampleSelfReserved.returnBook "M2" "B1" 3 4).2 = .ok (some (.ok .issued))
      ∧ ((sampleSelfReserved.returnBook "M2" "B1" 3 4).1.returnBook "M2" "B1" 5 6).2 = .ok none
      ∧ ((sampleSelfReserved.returnBook "M2" "B1" 3 4).1.returnBook "M2" "B1" 5 6).1.transactions
          ≠ (sampleSelfReserved.returnBook "M2" "B1" 3 4).1.transactions :=
  ⟨by decide, reachable_run sample _, rfl, rfl, by decide⟩

/-- C9 (amended): in a state reachable from a freshly loaded catalog, if
`returnBook(b, i)` succeeds and the head of the reservation queue was not the
reservation `(b, i)` of the same borrower for the same item, a second
`returnBook(b, i)` throws the no-open-transaction error and leaves the ledger,
and the whole state, unchanged. -/
theorem double_return (s0 s : Library) (h0 : s0.Fresh) (hreach : Library.Reachable s0 s)
    (b i : String) (now nowIssue now2 nowIssue2 : Int)
    (o : Option (Except LibraryException IssueOutcome))
    (hok : (s.returnBook b i now nowIssue).2 = .ok o)
    (hhead : s.bookReservations.head? ≠ some (b, i)) :
    ((s.returnBook b i now nowIssue).1.returnBook b i now2 nowIssue2).2 =
        .error .noActiveTransaction
      ∧ ((s.returnBook b i now nowIssue).1.returnBook b i now2 nowIssue2).1.transactions =
        (s.returnBook b i now nowIssue).1.transactions
      ∧ ((s.returnBook b i now nowIssue).1.returnBook b i now2 nowIssue2).1 =
        (s.returnBook b i now nowIssue).1 := by
  obtain ⟨hloan, -, -⟩ := invariants_of_fresh h0 hreach
  obtain ⟨mi, m, bi, book, ti, t, hm, hb, ht⟩ := returnBook_ok_inv hok
  -- the borrower and the item stay indexed
  have hm2 : ((s.returnBook b i now nowIssue).1.findMember b).isSome = true := by
    rw [findMember_isSome_iff, memberIds_returnBook, ← findMember_isSome_iff, hm]
    rfl
  have hb2 : ((s.returnBook b i now nowIssue).1.findBook i).isSome = true := by
    rw [findBook_isSome_iff, bookIds_returnBook, ← findBook_isSome_iff, hb]
    rfl
  -- no open transaction for the pair is left
  have hnone : (s.returnBook b i now nowIssue).1.findTransaction b i = none := by
    rw [findTransaction_eq_none_iff]
    have hzero : (s.closeLoan mi m bi book ti t i now).openCount i = 0 :=
      (LoanInv_closeLoan hloan hb ht now).2
    by_cases hq : ∀ r ∈ s.bookReservations.head?, r.2 ≠ i
    · rw [returnBook_plain hm hb ht hq]
      exact fun t ht hcon => no_open_of_openCount_zero hzero t ht hcon.2
    · cases hqq : s.bookReservations with
      | nil => simp [hqq] at hq
      | cons r rest =>
        have hr : r.2 = i := by simpa [hqq] using hq
        have hrb : r.1 ≠ b := by
          intro hcon
          apply hhead
          rw [hqq, List.head?_cons, ← hcon, ← hr]
        rw [returnBook_follow hm hb ht hqq hr]
        exact no_open_after_follow hzero rest r.1 b hrb nowIssue
  obtain ⟨r1, hr1⟩ := Option.isSome_iff_exists.1 hm2
  obtain ⟨r2, hr2⟩ := Option.isSome_iff_exists.1 hb2
  obtain ⟨k1, x1⟩ := r1
  obtain ⟨k2, x2⟩ := r2
  have hfin : (s.returnBook b i now nowIssue).1.returnBook b i now2 nowIssue2 =
      ((s.returnBook b i now nowIssue).1, .error .noActiveTransaction) :=
    returnBook_noTransaction hr1 hr2 hnone
  rw [hfin]
  exact ⟨rfl, rfl, rfl⟩

theorem double_return_witness :
    sample.Fresh ∧ Library.Reachable sample sampleLoaned
      ∧ (sampleLoaned.returnBook "M1" "B1" 7 8).2 = .ok none
      ∧ ((sampleLoaned.returnBook "M1" "B1" 7 8).1.returnBook "M1" "B1" 9 10).2 =
          .error .noActiveTransaction :=
  ⟨by decide, reachable_run sample [.issue "M1" "B1" 5], rfl,
    (double_return sample sampleLoaned (by decide) (reachable_run sample [.issue "M1" "B1" 5])
      "M1" "B1" 7 8 9 10 none rfl (by decide)).1⟩

/-! ## The issue limit -/

/-- What the code does, for every maximum: the issue of an available item
throws the issue-limit error exactly when the held count is at least the
maximum converted to `size_t`, and then nothing changes. -/
theorem issue_limit_unsigned (s : Library) (b i : String) (now : Int)
    (mi : Nat) (m : Member) (bi : Nat) (book : Book)
    (hm : s.findMember b = some (mi, m)) (hb : s.findBook i = some (bi, book))
    (ha : book.isAvailable = true) :
    ((s.issueBook b i now).2 = .error (.maxIssueLimit b) ↔
        m.issuedBooks.length ≥ m.maxBooksAllowed.toSizeT)
      ∧ ((s.issueBook b i now).2 = .error (.maxIssueLimit b) → (s.issueBook b i now).1 = s) := by
  have hid := (findMember_some hm).2
  by_cases hl : m.issuedBooks.length ≥ m.maxBooksAllowed.toSizeT
  · rw [issueBook_limit hm hb ha hl, hid]
    exact ⟨⟨fun _ => hl, fun _ => rfl⟩, fun _ => rfl⟩
  · rw [issueBook_issued hm hb ha (by omega)]
    refine ⟨⟨fun h => ?_, fun h => absurd h hl⟩, fun h => ?_⟩ <;> simp at h

/-- For a borrower with a non-negative maximum the issue of an available item
throws the issue-limit error exactly when the held count equals or exceeds the
maximum, and then nothing changes. -/
theorem issue_limit_nonneg (s : Library) (b i : String) (now : Int)
    (mi : Nat) (m : Member) (bi : Nat) (book : Book)
    (hm : s.findMember b = some (mi, m)) (hb : s.findBook i = some (bi, book))
    (ha : book.isAvailable = true) (hnn : 0 ≤ m.maxBooksAllowed.val) :
    ((s.issueBook b i now).2 = .error (.maxIssueLimit b) ↔
        (m.issuedBooks.length : Int) ≥ m.maxBooksAllowed.val)
      ∧ ((s.issueBook b i now).2 = .error (.maxIssueLimit b) → (s.issueBook b i now).1 = s) := by
  have h := issue_limit_unsigned s b i now mi m bi book hm hb ha
  rw [toSizeT_of_nonneg hnn] at h
  refine ⟨h.1.trans ?_, h.2⟩
  omega

/-- C10 at a borrower constructed with the maximum `-1`: the held count 0
exceeds the maximum, and `issueBook` issues the item all the same, since the
comparison converts `-1` to the largest `size_t`. -/
theorem issue_limit_negative_maximum :
    sampleNegative.findMember "M9" = some (0, Member.new "M9" "n9" "x9" intNeg1)
      ∧ sampleNegative.findBook "B1" = some (0, Book.new "B1" "t1" "a1" "c1")
      ∧ ((Member.new "M9" "n9" "x9" intNeg1).issuedBooks.length : Int) ≥
          (Member.new "M9" "n9" "x9" intNeg1).maxBooksAllowed.val
      ∧ (Member.new "M9" "n9" "x9" intNeg1).maxBooksAllowed.toSizeT = 18446744073709551615
      ∧ (sampleNegative.issueBook "M9" "B1" 5).2 = .ok .issued
      ∧ (sampleNegative.issueBook "M9" "B1" 5).1.transactions =
          [Transaction.new "T1001" "M9" "B1" 5]
      ∧ ((sampleNegative.issueBook "M9" "B1" 5).1.findBook "B1").map (fun r => r.2.isAvailable) =
          some false :=
  ⟨rfl, rfl, by decide, by decide, rfl, by decide, rfl⟩

/-! ## Unknown identifiers -/

theorem firstMatch_eq_some_iff {α : Type} {p : α → Bool} {l : List α} {k : Nat} {x : α} :
    firstMatch p l = some (k, x) ↔
      l[k]? = some x ∧ p x = true ∧ ∀ j, j < k → ∀ y, l[j]? = some y → p y = false := by
  constructor
  · intro h
    exact ⟨(firstMatch_some h).1, (firstMatch_some h).2, firstMatch_first h⟩
  · intro h
    induction l generalizing k with
    | nil => simp at h
    | cons a l ih =>
      obtain ⟨h1, h2, h3⟩ := h
      cases k with
      | zero =>
        simp at h1
        subst h1
        simp [firstMatch, h2]
      | succ k =>
        simp at h1
        have ha : p a = false := h3 0 (by omega) a (by simp)
        have hrec := ih (k := k) ⟨h1, h2, fun j hj y hy => h3 (j + 1) (by omega) y (by simpa using hy)⟩
        simp [firstMatch, ha, hrec]

theorem findMember_eq_none_iff (s : Library) (id : String) :
    s.findMember id = none ↔ id ∉ s.members.map Member.memberId := by
  rw [← findMember_isSome_iff]
  cases s.findMember id <;> simp

theorem findBook_eq_none_iff (s : Library) (id : String) :
    s.findBook id = none ↔ id ∉ s.books.map Book.bookId := by
  rw [← findBook_isSome_iff]
  cases s.findBook id <;> simp

/-- With the member and the book found, `issueBook` ends with an outcome or
with the issue-limit error. -/
theorem issueBook_found {s : Library} {memberId bookId : String} {mi : Nat} {m : Member}
    {bi : Nat} {book : Book} (hm : s.findMember memberId = some (mi, m))
    (hb : s.findBook bookId = some (bi, book)) (now : Int) :
    (∃ o, (s.issueBook memberId bookId now).2 = .ok o)
      ∨ (s.issueBook memberId bookId now).2 = .error (.maxIssueLimit memberId) := by
  cases ha : book.isAvailable with
  | false => exact Or.inl ⟨_, by rw [issueBook_queued hm hb ha]⟩
  | true =>
    by_cases hl : m.issuedBooks.length ≥ m.maxBooksAllowed.toSizeT
    · exact Or.inr (by rw [issueBook_limit hm hb ha hl, (findMember_some hm).2])
    · exact Or.inl ⟨_, by rw [issueBook_issued hm hb ha (by omega)]⟩

/-- With the member, the book and an open transaction found, `returnBook` does
not throw. -/
theorem returnBook_found {s : Library} {memberId bookId : String} {mi : Nat} {m : Member}
    {bi : Nat} {book : Book} {ti : Nat} {t : Transaction}
    (hm : s.findMember memberId = some (mi, m)) (hb : s.findBook bookId = some (bi, book))
    (ht : s.findTransaction memberId bookId = some (ti, t)) (now nowIssue : Int) :
    ∃ o, (s.returnBook memberId bookId now nowIssue).2 = .ok o := by
  by_cases hq : ∀ r ∈ s.bookReservations.head?, r.2 ≠ bookId
  · exact ⟨_, by rw [returnBook_plain hm hb ht hq]⟩
  · cases hqq : s.bookReservations with
    | nil => simp [hqq] at hq
    | cons r rest =>
      have hr : r.2 = bookId := by simpa [hqq] using hq
      exact ⟨_, by rw [returnBook_follow hm hb ht hqq hr]⟩

/-- Which lookup failure each of the two lookup errors stands for. -/
theorem error_kinds (s : Library) (b i : String) (now nowIssue : Int) :
    (∀ x, (s.issueBook b i now).2 = .error (.invalidMember x) ↔
        x = b ∧ s.findMember b = none)
      ∧ (∀ x, (s.issueBook b i now).2 = .error (.bookNotFound x) ↔
        x = i ∧ s.findMember b ≠ none ∧ s.findBook i = none)
      ∧ (∀ x, (s.returnBook b i now nowIssue).2 = .error (.invalidMember x) ↔
        x = b ∧ s.findMember b = none)
      ∧ (∀ x, (s.returnBook b i now nowIssue).2 = .error (.bookNotFound x) ↔
        x = i ∧ s.findMember b ≠ none ∧ s.findBook i = none) := by
  cases hm : s.findMember b with
  | none =>
    rw [issueBook_noMember hm, returnBook_noMember hm]
    simp [eq_comm]
  | some r1 =>
    obtain ⟨mi, m⟩ := r1
    cases hb : s.findBook i with
    | none =>
      rw [issueBook_noBook hm hb, returnBook_noBook hm hb]
      simp [eq_comm]
    | some r2 =>
      obtain ⟨bi, book⟩ := r2
      have hI := issueBook_found hm hb now
      have hR : (∃ o, (s.returnBook b i now nowIssue).2 = .ok o)
          ∨ (s.returnBook b i now nowIssue).2 = .error .noActiveTransaction := by
        cases ht : s.findTransaction b i with
        | none => exact Or.inr (by rw [returnBook_noTransaction hm hb ht])
        | some r3 => exact Or.inl (returnBook_found hm hb ht now nowIssue)
      rcases hI with ⟨o1, hI⟩ | hI <;> rcases hR with ⟨o2, hR⟩ | hR <;> simp [hI, hR]

/-- C11: `issueBook` and `returnBook` throw the unknown-borrower error exactly
when no indexed borrower has the borrower identifier (whatever the item
identifier is), and the unknown-item error exactly when the borrower is
indexed and no indexed item has the item identifier; the errors name the
identifiers of the call.  A lookup returns the first record, in insertion
order, whose identifier is equal. -/
theorem unknown_identifiers (s : Library) (b i : String) (now nowIssue : Int) :
    ((s.issueBook b i now).2 = .error (.invalidMember b) ↔
        b ∉ s.members.map Member.memberId)
      ∧ ((s.issueBook b i now).2 = .error (.bookNotFound i) ↔
        b ∈ s.members.map Member.memberId ∧ i ∉ s.books.map Book.bookId)
      ∧ ((s.returnBook b i now nowIssue).2 = .error (.invalidMember b) ↔
        b ∉ s.members.map Member.memberId)
      ∧ ((s.returnBook b i now nowIssue).2 = .error (.bookNotFound i) ↔
        b ∈ s.members.map Member.memberId ∧ i ∉ s.books.map Book.bookId)
      ∧ (∀ x, ((s.issueBook b i now).2 = .error (.invalidMember x)
            ∨ (s.returnBook b i now nowIssue).2 = .error (.invalidMember x)) →
          x = b ∧ b ∉ s.members.map Member.memberId)
      ∧ (∀ x, ((s.issueBook b i now).2 = .error (.bookNotFound x)
            ∨ (s.returnBook b i now nowIssue).2 = .error (.bookNotFound x)) →
          x = i ∧ i ∉ s.books.map Book.bookId)
      ∧ (∀ k m, s.findMember b = some (k, m) ↔
          s.members[k]? = some m ∧ m.memberId = b
            ∧ ∀ j, j < k → ∀ y, s.members[j]? = some y → y.memberId ≠ b)
      ∧ (∀ k x, s.findBook i = some (k, x) ↔
          s.books[k]? = some x ∧ x.bookId = i
            ∧ ∀ j, j < k → ∀ y, s.books[j]? = some y → y.bookId ≠ i) := by
  have hlookM : ∀ k m, s.findMember b = some (k, m) ↔
      s.members[k]? = some m ∧ m.memberId = b
        ∧ ∀ j, j < k → ∀ y, s.members[j]? = some y → y.memberId ≠ b := by
    intro k m
    unfold Library.findMember
    rw [firstMatch_eq_some_iff]
    simp
  have hlookB : ∀ k x, s.findBook i = some (k, x) ↔
      s.books[k]? = some x ∧ x.bookId = i
        ∧ ∀ j, j < k → ∀ y, s.books[j]? = some y → y.bookId ≠ i := by
    intro k x
    rw [findBook_eq, firstMatch_eq_some_iff]
    simp
  obtain ⟨k1, k2, k3, k4⟩ := error_kinds s b i now nowIssue
  have hMn := findMember_eq_none_iff s b
  have hBn := findBook_eq_none_iff s i
  have hMs : s.findMember b ≠ none ↔ b ∈ s.members.map Member.memberId := by
    rw [Ne, hMn, not_not]
  refine ⟨?_, ?_, ?_, ?_, ?_, ?_, hlookM, hlookB⟩
  · rw [k1, hMn]; simp
  · rw [k2, hMs, hBn]; simp
  · rw [k3, hMn]; simp
  · rw [k4, hMs, hBn]; simp
  · intro x hx
    rcases hx with hx | hx
    · rw [k1, hMn] at hx; exact hx
    · rw [k3, hMn] at hx; exact hx
  · intro x hx
    rcases hx with hx | hx
    · rw [k2, hBn] at hx; exact ⟨hx.1, hx.2.2⟩
    · rw [k4, hBn] at hx; exact ⟨hx.1, hx.2.2⟩

/-! ## No open transaction -/

theorem countP_le_one_unique {α : Type} {p : α → Bool} {l : List α}
    (h : l.countP p ≤ 1) {x y : α} (hx : x ∈ l) (hy : y ∈ l) (hpx : p x = true)
    (hpy : p y = true) : x = y := by
  induction l with
  | nil => simp at hx
  | cons a l ih =>
    rw [List.countP_cons] at h
    rcases List.mem_cons.1 hx with rfl | hx1 <;> rcases List.mem_cons.1 hy with rfl | hy1
    · rfl
    · have : 0 < l.countP p := List.countP_pos_iff.2 ⟨y, hy1, hpy⟩
      simp only [hpx, ↓reduceIte] at h
      omega
    · have : 0 < l.countP p := List.countP_pos_iff.2 ⟨x, hx1, hpx⟩
      simp only [hpy, ↓reduceIte] at h
      omega
    · exact ih (by omega) hx1 hy1

theorem openCount_le_one_of_LoanInv {s : Library} (hinv : s.LoanInv) {i : String} {bi : Nat}
    {book : Book} (hb : s.findBook i = some (bi, book)) : s.openCount i ≤ 1 := by
  rw [hinv i bi book hb]
  split <;> omega

/-- C12: for an indexed borrower and an indexed item, `returnBook` throws the
no-open-transaction error exactly when the ledger holds no unreturned
transaction for the pair.  In a state reachable from a freshly loaded catalog
this covers the return of an item that is on the shelf and the return of an
item that is on loan to another borrower. -/
theorem no_open_transaction (s : Library) (b i : String) (now nowIssue : Int)
    (mi : Nat) (m : Member) (bi : Nat) (book : Book)
    (hm : s.findMember b = some (mi, m)) (hb : s.findBook i = some (bi, book)) :
    ((s.returnBook b i now nowIssue).2 = .error .noActiveTransaction ↔
        ∀ t ∈ s.transactions, ¬ (t.memberId = b ∧ t.bookId = i ∧ t.isReturned = false))
      ∧ (∀ s0 : Library, s0.Fresh → Library.Reachable s0 s →
          (book.isAvailable = true →
            (s.returnBook b i now nowIssue).2 = .error .noActiveTransaction)
          ∧ (∀ c, c ≠ b →
              (∃ t ∈ s.transactions, t.memberId = c ∧ t.bookId = i ∧ t.isReturned = false) →
              (s.returnBook b i now nowIssue).2 = .error .noActiveTransaction)) := by
  have hiff : (s.returnBook b i now nowIssue).2 = .error .noActiveTransaction ↔
      ∀ t ∈ s.transactions, ¬ (t.memberId = b ∧ t.bookId = i ∧ t.isReturned = false) := by
    rw [← findTransaction_eq_none_iff]
    cases ht : s.findTransaction b i with
    | none => simp [returnBook_noTransaction hm hb ht]
    | some r =>
      obtain ⟨o, ho⟩ := returnBook_found hm hb ht now nowIssue
      simp [ho]
  refine ⟨hiff, ?_⟩
  intro s0 h0 hreach
  obtain ⟨hloan, -, -⟩ := invariants_of_fresh h0 hreach
  constructor
  · intro ha
    rw [hiff]
    have h0 : s.openCount i = 0 := by rw [hloan i bi book hb, ha]; rfl
    exact fun t ht hcon => no_open_of_openCount_zero h0 t ht hcon.2
  · rintro c hc ⟨t1, ht1, h1, h2, h3⟩
    rw [hiff]
    intro t2 ht2 hcon
    have hle : s.transactions.countP (fun t => t.bookId == i && !t.isReturned) ≤ 1 :=
      openCount_le_one_of_LoanInv hloan hb
    have heq : t1 = t2 :=
      countP_le_one_unique hle ht1 ht2 (by simp [h2, h3]) (by simp [hcon.2.1, hcon.2.2])
    subst heq
    exact hc (h1.symm.trans hcon.1)

theorem no_open_transaction_witness :
    sampleLoaned.findMember "M2" = some (1, Member.new "M2" "n2" "x2" int3)
      ∧ sampleLoaned.findBook "B1" = some (0, (Book.new "B1" "t1" "a1" "c1").setAvailability false)
      ∧ (sampleLoaned.returnBook "M2" "B1" 7 8).2 = .error .noActiveTransaction :=
  ⟨rfl, rfl,
    ((no_open_transaction sampleLoaned "M2" "B1" 7 8 1 _ 0 _ rfl rfl).2 sample (by decide)
      (reachable_run sample [.issue "M1" "B1" 5])).2 "M1" (by decide)
      ⟨Transaction.new "T1001" "M1" "B1" 5, by decide, rfl, rfl, rfl⟩⟩

/-! ## Failures change nothing -/

theorem returnBook_error_state {s : Library} {memberId bookId : String} {now nowIssue : Int}
    {e : LibraryException} (h : (s.returnBook memberId bookId now nowIssue).2 = .error e) :
    s.returnBook memberId bookId now nowIssue = (s, .error e) := by
  rcases returnBook_cases s memberId bookId now nowIssue with ⟨e1, h1⟩ |
    ⟨mi, m, bi, book, ti, t, -, -, -, ⟨-, h1⟩ | ⟨r, rest, -, -, h1⟩⟩
  · rw [h1] at h ⊢
    simp only [Except.error.injEq] at h
    rw [h]
  · rw [h1] at h; simp at h
  · rw [h1] at h; simp at h

/-- Only four exceptions reach the caller of `issueBook` and `returnBook`. -/
theorem raised_errors (s : Library) (b i : String) (now nowIssue : Int)
    (e : LibraryException) :
    ((s.issueBook b i now).2 = .error e →
        e = .invalidMember b ∨ e = .bookNotFound i ∨ e = .maxIssueLimit b)
      ∧ ((s.returnBook b i now nowIssue).2 = .error e →
        e = .invalidMember b ∨ e = .bookNotFound i ∨ e = .noActiveTransaction) := by
  cases hm : s.findMember b with
  | none =>
    rw [issueBook_noMember hm, returnBook_noMember hm]
    simp only [Except.error.injEq]
    constructor <;> rintro rfl <;> simp
  | some r1 =>
    obtain ⟨mi, m⟩ := r1
    cases hb : s.findBook i with
    | none =>
      rw [issueBook_noBook hm hb, returnBook_noBook hm hb]
      simp only [Except.error.injEq]
      constructor <;> rintro rfl <;> simp
    | some r2 =>
      obtain ⟨bi, book⟩ := r2
      have hI := issueBook_found hm hb now
      have hR : (∃ o, (s.returnBook b i now nowIssue).2 = .ok o)
          ∨ (s.returnBook b i now nowIssue).2 = .error .noActiveTransaction := by
        cases ht : s.findTransaction b i with
        | none => exact Or.inr (by rw [returnBook_noTransaction hm hb ht])
        | some r3 => exact Or.inl (returnBook_found hm hb ht now nowIssue)
      constructor
      · intro h
        rcases hI with ⟨o1, hI⟩ | hI
        · rw [hI] at h; cases h
        · rw [hI] at h
          simp only [Except.error.injEq] at h
          simp [← h]
      · intro h
        rcases hR with ⟨o2, hR⟩ | hR
        · rw [hR] at h; cases h
        · rw [hR] at h
          simp only [Except.error.injEq] at h
          simp [← h]

/-- C20: whenever `issueBook` or `returnBook` throws to its caller (unknown
borrower, unknown item, issue limit reached, no open transaction), the state
after the call is the state before it: items, borrowers, ledger, recent
activity stack, reservation queue and identifier counter. -/
theorem failure_atomic (s : Library) (b i : String) (now nowIssue : Int)
    (e : LibraryException) :
    ((s.issueBook b i now).2 = .error e →
        (s.issueBook b i now).1 = s
          ∧ (e = .invalidMember b ∨ e = .bookNotFound i ∨ e = .maxIssueLimit b))
      ∧ ((s.returnBook b i now nowIssue).2 = .error e →
        (s.returnBook b i now nowIssue).1 = s
          ∧ (e = .invalidMember b ∨ e = .bookNotFound i ∨ e = .noActiveTransaction)) := by
  have hk := raised_errors s b i now nowIssue e
  constructor
  · intro h1
    rw [issueBook_error_state h1]
    exact ⟨rfl, hk.1 h1⟩
  · intro h1
    rw [returnBook_error_state h1]
    exact ⟨rfl, hk.2 h1⟩

theorem failure_atomic_witness :
    (sampleAtLimit.issueBook "M1" "B9" 7).2 = .error (.bookNotFound "B9")
      ∧ (sampleAtLimit.issueBook "M1" "B9" 7).1 = sampleAtLimit :=
  ⟨rfl, ((failure_atomic sampleAtLimit "M1" "B9" 7 8 (.bookNotFound "B9")).1 rfl).1⟩

/-! ## The capacity invariant -/

theorem CapInv_openLoan {s : Library} (hinv : s.CapInv) {memberId bookId : String}
    {mi : Nat} {m : Member} {bi : Nat} {book : Book}
    (hm : s.findMember memberId = some (mi, m))
    (hl : m.issuedBooks.length < m.maxBooksAllowed.toSizeT) (now : Int) :
    (s.openLoan mi m bi book memberId bookId now).CapInv := by
  have hmem : m ∈ s.members := List.getElem?_mem (findMember_some hm).1
  intro x hx
  simp only [Library.openLoan] at hx
  rcases List.mem_or_eq_of_mem_set hx with hx | rfl
  · exact hinv x hx
  · have h1 := (hinv m hmem).1
    rw [toSizeT_of_nonneg h1] at hl
    refine ⟨h1, ?_⟩
    simp only [List.length_append, List.length_singleton]
    omega

theorem CapInv_closeLoan {s : Library} (hinv : s.CapInv) {memberId : String}
    {mi : Nat} {m : Member} (hm : s.findMember memberId = some (mi, m))
    (bi : Nat) (book : Book) (ti : Nat) (t : Transaction) (bookId : String) (now : Int) :
    (s.closeLoan mi m bi book ti t bookId now).CapInv := by
  have hmem : m ∈ s.members := List.getElem?_mem (findMember_some hm).1
  intro x hx
  simp only [Library.closeLoan] at hx
  rcases List.mem_or_eq_of_mem_set hx with hx | rfl
  · exact hinv x hx
  · have h1 := hinv m hmem
    have h2 := List.length_erase_le bookId m.issuedBooks
    refine ⟨h1.1, ?_⟩
    simp only [Member.returnBook]
    omega

theorem CapInv_issueBook {s : Library} (hinv : s.CapInv) (memberId bookId : String)
    (now : Int) : (s.issueBook memberId bookId now).1.CapInv := by
  rcases issueBook_cases s memberId bookId now with ⟨e, h⟩ | ⟨mi, m, bi, book, -, -, -, h⟩ |
    ⟨mi, m, bi, book, hm, -, -, hl, h⟩
  · rw [h]; exact hinv
  · rw [h]; exact hinv
  · rw [h]; exact CapInv_openLoan hinv hm hl now

theorem CapInv_returnBook {s : Library} (hinv : s.CapInv) (memberId bookId : String)
    (now nowIssue : Int) : (s.returnBook memberId bookId now nowIssue).1.CapInv := by
  rcases returnBook_cases s memberId bookId now nowIssue with ⟨e, h⟩ |
    ⟨mi, m, bi, book, ti, t, hm, -, -, ⟨-, h⟩ | ⟨r, rest, -, -, h⟩⟩
  · rw [h]; exact hinv
  · rw [h]; exact CapInv_closeLoan hinv hm _ _ _ _ _ now
  · rw [h]
    have h1 : (s.closeLoan mi m bi book ti t bookId now).CapInv :=
      CapInv_closeLoan hinv hm _ _ _ _ _ now
    have h2 : ((s.closeLoan mi m bi book ti t bookId now).withReservations rest).CapInv := h1
    exact CapInv_issueBook h2 _ _ _

theorem CapInv_reachable {s0 s : Library} (h0 : s0.CapInv) (hr : Library.Reachable s0 s) :
    s.CapInv := by
  induction hr with
  | init => exact h0
  | step s c _ ih =>
    cases c with
    | issue m b now => exact CapInv_issueBook ih m b now
    | ret m b now nowIssue => exact CapInv_returnBook ih m b now nowIssue

/-- C13: from a catalog in which every borrower holds nothing and has a
non-negative maximum, after any sequence of `issueBook` and `returnBook` calls
(follow-on issues included) every borrower holds at most as many items as
their maximum. -/
theorem held_within_maximum (s0 s : Library)
    (h0 : ∀ m ∈ s0.members, m.issuedBooks = [] ∧ 0 ≤ m.maxBooksAllowed.val)
    (hr : Library.Reachable s0 s) :
    ∀ m ∈ s.members, (m.issuedBooks.length : Int) ≤ m.maxBooksAllowed.val := by
  have hcap : s0.CapInv := by
    intro m hm
    obtain ⟨h1, h2⟩ := h0 m hm
    exact ⟨h2, by rw [h1]; simpa using h2⟩
  exact fun m hm => (CapInv_reachable hcap hr m hm).2

theorem held_within_maximum_witness :
    (∀ m ∈ sample.members, m.issuedBooks = [] ∧ 0 ≤ m.maxBooksAllowed.val)
      ∧ Library.Reachable sample sampleAtLimit
      ∧ ∀ m ∈ sampleAtLimit.members, (m.issuedBooks.length : Int) ≤ m.maxBooksAllowed.val :=
  ⟨by decide, reachable_run sample _,
    held_within_maximum sample sampleAtLimit (by decide) (reachable_run sample _)⟩

/-! ## The recent-activity view -/

theorem recentLoop_eq_take (count : Int) (l : List Nat) (i : Int) :
    recentLoop count l i = l.take (count - i).toNat := by
  induction l generalizing i with
  | nil => simp [recentLoop]
  | cons a l ih =>
    unfold recentLoop
    by_cases h : i < count
    · have h1 : (count - i).toNat = (count - (i + 1)).toNat + 1 := by omega
      simp only [h, if_true, ih, h1, List.take_succ_cons]
    · have h1 : (count - i).toNat = 0 := by omega
      simp [h, h1]

theorem displayRecentTransactions_eq (s : Library) (count : Int) :
    s.displayRecentTransactions count = (s, s.recentTransactions.take count.toNat) := by
  unfold Library.displayRecentTransactions
  cases h : s.recentTransactions with
  | nil => simp
  | cons a l => simp [recentLoop_eq_take]

/-- C15: for every state and every count `n`, the entries selected by
`displayRecentTransactions(n)` are the first `n` entries of the stack from the
top (none when `n` is not positive): as many as `min(max(n, 0), size)`, the
most recently pushed first, that is the reverse of the push order cut after `n`
entries.  The call changes nothing in the state. -/
theorem recent_selection (s : Library) (n : Int) :
    (s.displayRecentTransactions n).2 = s.recentTransactions.take n.toNat
      ∧ (s.displayRecentTransactions n).2.length =
          min (max n 0).toNat s.recentTransactions.length
      ∧ (∀ pushed : List Nat, s.recentTransactions = pushed.reverse →
          (s.displayRecentTransactions n).2 = pushed.reverse.take n.toNat)
      ∧ (∀ k, k < (s.displayRecentTransactions n).2.length →
          (s.displayRecentTransactions n).2[k]? = s.recentTransactions[k]?)
      ∧ s.recentView n = (s.recentTransactions.take n.toNat).map (fun ptr => s.transactions[ptr]?)
      ∧ (s.displayRecentTransactions n).1 = s := by
  have h := displayRecentTransactions_eq s n
  refine ⟨by rw [h], ?_, ?_, ?_, by rw [Library.recentView, h], by rw [h]⟩
  · rw [h]
    simp only [List.length_take]
    have : (max n 0).toNat = n.toNat := by omega
    rw [this]
  · intro pushed hp
    rw [h, hp]
  · intro k hk
    rw [h] at hk ⊢
    simp only [List.length_take] at hk
    exact List.getElem?_take_of_lt (by omega)

/-! ## Ledger permanence -/

theorem Settles_refl (t : Transaction) : t.Settles t := Or.inl rfl

theorem Settles_returnBook (t : Transaction) (now : Int) (hr : t.isReturned = false) :
    t.Settles (t.returnBook now) := by
  have h := returnBook_memberId t now
  exact Or.inr ⟨hr, returnBook_isReturned t now, h.2.2.1, h.1, h.2.1, h.2.2.2⟩

theorem LedgerExtends_refl (l : List Transaction) : LedgerExtends l l :=
  ⟨Nat.le_refl _, fun _ t h => ⟨t, h, Settles_refl t, fun _ => rfl⟩⟩

theorem LedgerExtends_trans {l1 l2 l3 : List Transaction} (h12 : LedgerExtends l1 l2)
    (h23 : LedgerExtends l2 l3) : LedgerExtends l1 l3 := by
  refine ⟨Nat.le_trans h12.1 h23.1, ?_⟩
  intro k t hk
  obtain ⟨t2, hk2, hs2, hr2⟩ := h12.2 k t hk
  obtain ⟨t3, hk3, hs3, hr3⟩ := h23.2 k t2 hk2
  refine ⟨t3, hk3, ?_, ?_⟩
  · rcases hs2 with rfl | ⟨ha, hb, hc⟩
    · exact hs3
    · have := hr3 hb
      subst this
      exact Or.inr ⟨ha, hb, hc⟩
  · intro hr
    have := hr2 hr
    subst this
    exact hr3 hr

theorem LedgerExtends_append (l : List Transaction) (x : Transaction) :
    LedgerExtends l (l ++ [x]) := by
  refine ⟨by simp, ?_⟩
  intro k t hk
  have hlt : k < l.length := (List.getElem?_eq_some_iff.1 hk).1
  exact ⟨t, by rw [List.getElem?_append_left hlt]; exact hk, Settles_refl t, fun _ => rfl⟩

theorem LedgerExtends_set {l : List Transaction} {ti : Nat} {t : Transaction}
    (ht : l[ti]? = some t) (hr : t.isReturned = false) (now : Int) :
    LedgerExtends l (l.set ti (t.returnBook now)) := by
  refine ⟨by simp, ?_⟩
  intro k x hk
  by_cases hki : ti = k
  · subst hki
    rw [ht] at hk
    simp only [Option.some.injEq] at hk
    subst hk
    have hlt : ti < l.length := (List.getElem?_eq_some_iff.1 ht).1
    refine ⟨t.returnBook now, by simp [hlt], Settles_returnBook t now hr, ?_⟩
    intro h
    rw [hr] at h
    cases h
  · exact ⟨x, by rw [List.getElem?_set_ne hki]; exact hk, Settles_refl x, fun _ => rfl⟩

theorem LedgerExtends_issueBook (s : Library) (memberId bookId : String) (now : Int) :
    LedgerExtends s.transactions (s.issueBook memberId bookId now).1.transactions := by
  rcases issueBook_cases s memberId bookId now with ⟨e, h⟩ | ⟨mi, m, bi, book, -, -, -, h⟩ |
    ⟨mi, m, bi, book, -, -, -, -, h⟩
  · rw [h]; exact LedgerExtends_refl _
  · rw [h]; exact LedgerExtends_refl _
  · rw [h]; exact LedgerExtends_append _ _

theorem LedgerExtends_returnBook (s : Library) (memberId bookId : String)
    (now nowIssue : Int) :
    LedgerExtends s.transactions (s.returnBook memberId bookId now nowIssue).1.transactions := by
  rcases returnBook_cases s memberId bookId now nowIssue with ⟨e, h⟩ |
    ⟨mi, m, bi, book, ti, t, -, -, ht, ⟨-, h⟩ | ⟨r, rest, -, -, h⟩⟩
  · rw [h]; exact LedgerExtends_refl _
  · rw [h]
    have hts := findTransaction_some ht
    exact LedgerExtends_set hts.1 hts.2.2.2 now
  · rw [h]
    have hts := findTransaction_some ht
    exact LedgerExtends_trans (LedgerExtends_set hts.1 hts.2.2.2 now)
      (LedgerExtends_issueBook
        ((s.closeLoan mi m bi book ti t bookId now).withReservations rest) r.1 bookId nowIssue)

theorem LedgerExtends_run (calls : List Call) (s : Library) :
    LedgerExtends s.transactions (s.run calls).transactions := by
  induction calls generalizing s with
  | nil => exact LedgerExtends_refl _
  | cons c cs ih =>
    have h1 : LedgerExtends s.transactions (s.step c).transactions := by
      cases c with
      | issue m b now => exact LedgerExtends_issueBook s m b now
      | ret m b now nowIssue => exact LedgerExtends_returnBook s m b now nowIssue
    exact LedgerExtends_trans h1 (ih (s.step c))

/-- C16: after any `issueBook` or `returnBook` call, and after any sequence of
them, the ledger is at least as long as before and every old entry sits at
its old index, either identical or changed from unreturned to returned with
the same transaction identifier, borrower, item and issue time; an entry that
was already returned is identical, so return time and fine are set once. -/
theorem ledger_permanence (s : Library) (b i : String) (now nowIssue : Int)
    (calls : List Call) :
    (s.transactions.length ≤ (s.issueBook b i now).1.transactions.length
        ∧ ∀ (k : Nat) (t : Transaction), s.transactions[k]? = some t →
          ∃ t1, (s.issueBook b i now).1.transactions[k]? = some t1 ∧ t1 = t)
      ∧ (s.transactions.length ≤ (s.returnBook b i now nowIssue).1.transactions.length
        ∧ ∀ (k : Nat) (t : Transaction), s.transactions[k]? = some t →
          ∃ t1, (s.returnBook b i now nowIssue).1.transactions[k]? = some t1
            ∧ (t1 = t ∨ (t.isReturned = false ∧ t1.isReturned = true
                ∧ t1.transactionId = t.transactionId ∧ t1.memberId = t.memberId
                ∧ t1.bookId = t.bookId ∧ t1.issueDate = t.issueDate))
            ∧ (t.isReturned = true → t1 = t))
      ∧ (s.transactions.length ≤ (s.run calls).transactions.length
        ∧ ∀ (k : Nat) (t : Transaction), s.transactions[k]? = some t →
          ∃ t1, (s.run calls).transactions[k]? = some t1
            ∧ (t1 = t ∨ (t.isReturned = false ∧ t1.isReturned = true
                ∧ t1.transactionId = t.transactionId ∧ t1.memberId = t.memberId
                ∧ t1.bookId = t.bookId ∧ t1.issueDate = t.issueDate))
            ∧ (t.isReturned = true → t1 = t)) := by
  refine ⟨?_, LedgerExtends_returnBook s b i now nowIssue, LedgerExtends_run calls s⟩
  rcases issueBook_cases s b i now with ⟨e, h⟩ | ⟨mi, m, bi, book, -, -, -, h⟩ |
    ⟨mi, m, bi, book, -, -, -, -, h⟩
  · rw [h]; exact ⟨Nat.le_refl _, fun k t hk => ⟨t, hk, rfl⟩⟩
  · rw [h]; exact ⟨Nat.le_refl _, fun k t hk => ⟨t, hk, rfl⟩⟩
  · rw [h]
    refine ⟨by simp [Library.openLoan], fun k t hk => ⟨t, ?_, rfl⟩⟩
    have hlt : k < s.transactions.length := (List.getElem?_eq_some_iff.1 hk).1
    simp only [Library.openLoan]
    rw [List.getElem?_append_left hlt]
    exact hk

/-! ## Recent activity after an issue and a return -/

theorem firstMatch_append_miss {α : Type} {p : α → Bool} {l : List α} {x : α}
    (hl : ∀ y ∈ l, p y = false) (hx : p x = true) :
    firstMatch p (l ++ [x]) = some (l.length, x) := by
  induction l with
  | nil => simp [firstMatch, hx]
  | cons a l ih =>
    have ha : p a = false := hl a (by simp)
    have := ih (fun y hy => hl y (by simp [hy]))
    simp [firstMatch, ha, this]

/-- An `issueBook` that does not issue leaves ledger and recent-activity stack
as they are. -/
theorem issueBook_not_issued {s : Library} {memberId bookId : String} {now : Int}
    (h : (s.issueBook memberId bookId now).2 ≠ .ok .issued) :
    (s.issueBook memberId bookId now).1.transactions = s.transactions
      ∧ (s.issueBook memberId bookId now).1.recentTransactions = s.recentTransactions := by
  rcases issueBook_cases s memberId bookId now with ⟨e, h1⟩ | ⟨mi, m, bi, book, -, -, -, h1⟩ |
    ⟨mi, m, bi, book, -, -, -, -, h1⟩
  · rw [h1]; exact ⟨rfl, rfl⟩
  · rw [h1]; exact ⟨rfl, rfl⟩
  · rw [h1] at h; exact absurd rfl h

/-- C14 as stated fails: `B1` is on the shelf and `M2` has a reservation for
it at the head of the queue.  `issueBook(M3, B1)` creates `T1004`;
`returnBook(M3, B1)` succeeds and its follow-on issue creates `T1005` for
`M2`, which is the entry the view for count 1 shows. -/
theorem recent_after_return_counterexample :
    sample.Fresh ∧ Library.Reachable sample sampleStaleReservation
      ∧ (sampleStaleReservation.issueBook "M3" "B1" 9).2 = .ok .issued
      ∧ (sampleStaleReservation.issueBook "M3" "B1" 9).1.transactions =
          sampleStaleReservation.transactions ++ [Transaction.new "T1004" "M3" "B1" 9]
      ∧ ((sampleStaleReservation.issueBook "M3" "B1" 9).1.returnBook "M3" "B1" 10 11).2 =
          .ok (some (.ok .issued))
      ∧ ((sampleStaleReservation.issueBook "M3" "B1" 9).1.returnBook "M3" "B1" 10 11).1.recentView
          1 = [some (Transaction.new "T1005" "M2" "B1" 11)] :=
  ⟨by decide, reachable_run sample _, rfl, by decide, rfl, by decide⟩

/-- C14 (amended): in a state reachable from a freshly loaded catalog, if
`issueBook(b, i)` succeeds creating transaction `t` and `returnBook(b, i)` then
succeeds without a follow-on issue that succeeds, the recent-activity view for
count 1 is the single entry `t`, shown in its returned state: returned, with
the return time of the call and its fine (the fine of the policy when issue
and return are less than `2^31` days apart). -/
theorem recent_after_return (s0 s : Library) (h0 : s0.Fresh)
    (hreach : Library.Reachable s0 s) (b i : String) (now now2 nowIssue : Int)
    (o : Option (Except LibraryException IssueOutcome))
    (hissue : (s.issueBook b i now).2 = .ok .issued)
    (hret : ((s.issueBook b i now).1.returnBook b i now2 nowIssue).2 = .ok o)
    (hno : o ≠ some (.ok .issued)) :
    ∃ t, (s.issueBook b i now).1.transactions = s.transactions ++ [t]
      ∧ t.memberId = b ∧ t.bookId = i
      ∧ ∃ f, ((s.issueBook b i now).1.returnBook b i now2 nowIssue).1.recentView 1 =
            [some { t with returnDate := now2, isReturned := true, fine := f }]
          ∧ (DaysFit t.issueDate now2 → f = finePolicy t.issueDate now2) := by
  obtain ⟨hloan, -, -⟩ := invariants_of_fresh h0 hreach
  rcases issueBook_cases s b i now with ⟨e, h⟩ | ⟨mi, m, bi, book, -, -, -, h⟩ |
    ⟨mi, m, bi, book, hm, hb, ha, hl, h⟩
  · rw [h] at hissue; cases hissue
  · rw [h] at hissue; cases hissue
  · rw [h] at hret ⊢
    simp only [] at hret ⊢
    refine ⟨Transaction.new ("T" ++ toString (s.nextId + 1)) b i now, rfl, rfl, rfl, ?_⟩
    -- the pointers that the return finds
    have hm1 : (s.openLoan mi m bi book b i now).findMember b =
        some (mi, { m with issuedBooks := m.issuedBooks ++ [i] }) := by
      rw [findMember_openLoan hm, if_pos rfl]
    have hb1 : (s.openLoan mi m bi book b i now).findBook i =
        some (bi, book.setAvailability false) := by
      rw [findBook_openLoan hb, if_pos rfl]
    have hzero : s.openCount i = 0 := by rw [hloan i bi book hb, ha]; rfl
    have ht1 : (s.openLoan mi m bi book b i now).findTransaction b i =
        some (s.transactions.length,
          Transaction.new ("T" ++ toString (s.nextId + 1)) b i now) := by
      unfold Library.findTransaction
      simp only [Library.openLoan]
      apply firstMatch_append_miss
      · intro y hy
        have := no_open_of_openCount_zero hzero y hy
        cases hr : y.isReturned <;> simp_all
      · simp [Transaction.new]
    -- ledger and stack after the return
    have hfin : ((s.openLoan mi m bi book b i now).returnBook b i now2 nowIssue).1.transactions
          = ((s.openLoan mi m bi book b i now).closeLoan mi
              { m with issuedBooks := m.issuedBooks ++ [i] } bi (book.setAvailability false)
              s.transactions.length
              (Transaction.new ("T" ++ toString (s.nextId + 1)) b i now) i now2).transactions
        ∧ ((s.openLoan mi m bi book b i now).returnBook b i now2 nowIssue).1.recentTransactions
          = ((s.openLoan mi m bi book b i now).closeLoan mi
              { m with issuedBooks := m.issuedBooks ++ [i] } bi (book.setAvailability false)
              s.transactions.length
              (Transaction.new ("T" ++ toString (s.nextId + 1)) b i now) i
              now2).recentTransactions := by
      by_cases hq : ∀ r ∈ (s.openLoan mi m bi book b i now).bookReservations.head?, r.2 ≠ i
      · rw [returnBook_plain hm1 hb1 ht1 hq]
        exact ⟨rfl, rfl⟩
      · cases hqq : (s.openLoan mi m bi book b i now).bookReservations with
        | nil => simp [hqq] at hq
        | cons r rest =>
          have hr : r.2 = i := by simpa [hqq] using hq
          rw [returnBook_follow hm1 hb1 ht1 hqq hr] at hret ⊢
          simp only [Except.ok.injEq] at hret
          have hne : (Library.issueBook
              (((s.openLoan mi m bi book b i now).closeLoan mi
                { m with issuedBooks := m.issuedBooks ++ [i] } bi (book.setAvailability false)
                s.transactions.length
                (Transaction.new ("T" ++ toString (s.nextId + 1)) b i now) i
                now2).withReservations rest) r.1 i nowIssue).2 ≠ .ok .issued := by
            intro hcon
            apply hno
            rw [← hret, hcon]
          exact issueBook_not_issued hne
    obtain ⟨f, hf1, hf2⟩ := returnBook_stored
      (Transaction.new ("T" ++ toString (s.nextId + 1)) b i now) now2 rfl rfl
    refine ⟨f, ?_, hf2⟩
    unfold Library.recentView
    rw [displayRecentTransactions_eq, hfin.1, hfin.2]
    simp only [Library.closeLoan, Library.openLoan]
    rw [hf1]
    simp [Transaction.new]

theorem recent_after_return_witness :
    sample.Fresh ∧ Library.Reachable sample sampleLoaned
      ∧ (sampleLoaned.issueBook "M2" "B2" 6).2 = .ok .issued
      ∧ ((sampleLoaned.issueBook "M2" "B2" 6).1.returnBook "M2" "B2" 7 8).2 = .ok none
      ∧ ∃ t, (sampleLoaned.issueBook "M2" "B2" 6).1.transactions =
            sampleLoaned.transactions ++ [t]
          ∧ t.memberId = "M2" ∧ t.bookId = "B2"
          ∧ ∃ f, ((sampleLoaned.issueBook "M2" "B2" 6).1.returnBook "M2" "B2" 7
                8).1.recentView 1 =
                [some { t with returnDate := 7, isReturned := true, fine := f }]
              ∧ (DaysFit t.issueDate 7 → f = finePolicy t.issueDate 7) :=
  ⟨by decide, reachable_run sample [.issue "M1" "B1" 5], rfl, rfl,
    recent_after_return sample sampleLoaned (by decide)
      (reachable_run sample [.issue "M1" "B1" 5]) "M2" "B2" 6 7 8 none rfl rfl (by decide)⟩

/-! ## Holdings mirror the open transactions -/

theorem memberIds_reachable {s0 s : Library} (hr : Library.Reachable s0 s) :
    s.members.map Member.memberId = s0.members.map Member.memberId := by
  induction hr with
  | init => rfl
  | step s c _ ih =>
    rw [← ih]
    cases c with
    | issue m b now => exact memberIds_issueBook s m b now
    | ret m b now nowIssue => exact memberIds_returnBook s m b now nowIssue

theorem single_issueBook {s : Library} (hloan : s.LoanInv) (hs : ∀ i, s.openCount i ≤ 1)
    (memberId bookId : String) (now : Int) :
    ∀ i, (s.issueBook memberId bookId now).1.openCount i ≤ 1 := by
  rcases issueBook_cases s memberId bookId now with ⟨e, h⟩ | ⟨mi, m, bi, book, -, -, -, h⟩ |
    ⟨mi, m, bi, book, -, hb, ha, -, h⟩
  · rw [h]; exact hs
  · rw [h]; exact hs
  · rw [h]
    intro i
    rw [openCount_openLoan]
    by_cases hi : i = bookId
    · subst hi
      have : s.openCount i = 0 := by rw [hloan i bi book hb, ha]; rfl
      simp [this]
    · simpa [hi] using hs i

theorem single_returnBook {s : Library} (hloan : s.LoanInv) (hs : ∀ i, s.openCount i ≤ 1)
    (memberId bookId : String) (now nowIssue : Int) :
    ∀ i, (s.returnBook memberId bookId now nowIssue).1.openCount i ≤ 1 := by
  rcases returnBook_cases s memberId bookId now nowIssue with ⟨e, h⟩ |
    ⟨mi, m, bi, book, ti, t, -, hb, ht, ⟨-, h⟩ | ⟨r, rest, -, -, h⟩⟩
  · rw [h]; exact hs
  · rw [h]
    intro i
    have := openCount_closeLoan ht mi m bi book now i
    have := hs i
    show (s.closeLoan mi m bi book ti t bookId now).openCount i ≤ 1
    omega
  · rw [h]
    have h1 : ∀ i, ((s.closeLoan mi m bi book ti t bookId now).withReservations
        rest).openCount i ≤ 1 := by
      intro i
      have := openCount_closeLoan ht mi m bi book now i
      have := hs i
      show (s.closeLoan mi m bi book ti t bookId now).openCount i ≤ 1
      omega
    have h3 : (s.closeLoan mi m bi book ti t bookId now).LoanInv :=
      (LoanInv_closeLoan hloan hb ht now).1
    have h2 : ((s.closeLoan mi m bi book ti t bookId now).withReservations rest).LoanInv := h3
    exact single_issueBook h2 h1 _ _ _

/-- In a state reachable from a freshly loaded catalog no item has two open
transactions. -/
theorem single_of_fresh {s0 s : Library} (h0 : s0.Fresh) (hr : Library.Reachable s0 s) :
    ∀ i, s.openCount i ≤ 1 := by
  have hl0 : s0.LoanInv := LoanInv_of_fresh h0.1 h0.2.2.1
  induction hr with
  | init =>
    intro i
    simp [Library.openCount, h0.2.2.1]
  | step s c hprev ih =>
    have hloan := LoanInv_reachable hl0 hprev
    cases c with
    | issue m b now => exact single_issueBook hloan ih m b now
    | ret m b now nowIssue => exact single_returnBook hloan ih m b now nowIssue

theorem nodup_open_items {l : List Transaction} (memberId : String)
    (h : ∀ i, l.countP (fun t => t.bookId == i && !t.isReturned) ≤ 1) :
    ((l.filter (fun t => t.memberId == memberId && !t.isReturned)).map
      Transaction.bookId).Nodup := by
  rw [List.nodup_iff_count_le_one]
  intro i
  rw [List.count_eq_countP, List.countP_map, List.countP_filter]
  refine Nat.le_trans (List.countP_mono_left ?_) (h i)
  intro t _ ht
  simp only [Function.comp_apply, Bool.and_eq_true, beq_iff_eq, Bool.not_eq_true',
    Bool.decide_and, Bool.decide_eq_true, decide_eq_true_eq] at ht ⊢
  exact ⟨ht.1, ht.2.2⟩

/-- C17: from a freshly loaded catalog with unique borrower identifiers, after
any sequence of `issueBook` and `returnBook` calls, the held items of every
borrower are the items of that borrower's unreturned ledger transactions, in
ledger order, and contain no duplicates (unique item identifiers are not
needed). -/
theorem holdings_match_ledger (s0 s : Library) (h0 : s0.Fresh)
    (hids : (s0.members.map Member.memberId).Nodup)
    (hr : Library.Reachable s0 s) :
    ∀ m ∈ s.members,
      m.issuedBooks =
          (s.transactions.filter (fun t => t.memberId == m.memberId && !t.isReturned)).map
            Transaction.bookId
        ∧ m.issuedBooks.Nodup := by
  intro m hm
  obtain ⟨-, hheld, -⟩ := invariants_of_fresh h0 hr
  have hnd : (s.members.map Member.memberId).Nodup := by rw [memberIds_reachable hr]; exact hids
  obtain ⟨k, hk⟩ := firstMatch_of_nodup Member.memberId hnd hm
  have heq := hheld m.memberId k m hk
  refine ⟨heq, ?_⟩
  rw [heq]
  exact nodup_open_items m.memberId (single_of_fresh h0 hr)

theorem holdings_match_ledger_witness :
    sample.Fresh ∧ (sample.members.map Member.memberId).Nodup
      ∧ Library.Reachable sample sampleStaleReservation
      ∧ ∀ m ∈ sampleStaleReservation.members,
          m.issuedBooks =
              (sampleStaleReservation.transactions.filter
                (fun t => t.memberId == m.memberId && !t.isReturned)).map Transaction.bookId
            ∧ m.issuedBooks.Nodup :=
  ⟨by decide, by decide, reachable_run sample _,
    holdings_match_ledger sample sampleStaleReservation (by decide) (by decide)
      (reachable_run sample _)⟩

/-! ## Transaction identifiers -/

theorem digitChar_value (k : Nat) (hk : k < 10) : (Nat.digitChar k).toNat - 48 = k := by
  interval_cases k <;> rfl

theorem toDigitsCore_value (fuel n : Nat) (ds : List Char) (h : n < fuel) :
    digitsValue (Nat.toDigitsCore 10 fuel n ds) 0 = digitsValue ds n := by
  induction fuel generalizing n ds with
  | zero => omega
  | succ fuel ih =>
    unfold Nat.toDigitsCore
    simp only []
    by_cases h0 : n / 10 = 0
    · simp only [h0, if_true]
      have hlt : n < 10 := by omega
      have : n % 10 = n := Nat.mod_eq_of_lt hlt
      simp [digitsValue, this, digitChar_value n hlt]
    · simp only [h0, if_false]
      rw [ih (n / 10) _ (by omega)]
      have hm : n % 10 < 10 := Nat.mod_lt _ (by decide)
      simp only [digitsValue, List.foldl_cons, digitChar_value _ hm]
      congr 1
      omega

/-- The decimal rendering `to_string` of a counter value determines the value. -/
theorem repr_injective {n m : Nat} (h : Nat.repr n = Nat.repr m) : n = m := by
  have h1 : Nat.toDigits 10 n = Nat.toDigits 10 m := by
    have := congrArg String.data h
    simpa [Nat.repr, List.asString] using this
  have h2 := congrArg (fun cs => digitsValue cs 0) h1
  simp only [Nat.toDigits] at h2
  rw [toDigitsCore_value _ _ _ (by omega), toDigitsCore_value _ _ _ (by omega)] at h2
  simpa [digitsValue] using h2

theorem transactionId_injective {n m : Nat}
    (h : "T" ++ toString n = "T" ++ toString m) : n = m := by
  have h1 := congrArg String.data h
  simp only [String.data_append, List.append_cancel_left_eq] at h1
  apply repr_injective
  show toString n = toString m
  exact String.ext h1

theorem IdInv_openLoan {s : Library} (hinv : s.IdInv) (mi : Nat) (m : Member) (bi : Nat)
    (book : Book) (memberId bookId : String) (now : Int) :
    (s.openLoan mi m bi book memberId bookId now).IdInv := by
  obtain ⟨h1, h2⟩ := hinv
  refine ⟨by simp [Library.openLoan, h1]; omega, ?_⟩
  intro k t hk
  simp only [Library.openLoan] at hk
  by_cases hlt : k < s.transactions.length
  · rw [List.getElem?_append_left hlt] at hk
    exact h2 k t hk
  · rw [List.getElem?_append_right (by omega)] at hk
    have hk0 : k - s.transactions.length = 0 := by
      by_contra hne
      rw [List.getElem?_eq_none (by simp; omega)] at hk
      cases hk
    rw [hk0] at hk
    simp only [List.getElem?_cons_zero, Option.some.injEq] at hk
    subst hk
    have : k = s.transactions.length := by omega
    subst this
    simp only [Transaction.new, h1, Nat.add_assoc]

theorem IdInv_closeLoan {s : Library} (hinv : s.IdInv) (mi : Nat) (m : Member) (bi : Nat)
    (book : Book) {ti : Nat} {t : Transaction} (ht : s.transactions[ti]? = some t)
    (bookId : String) (now : Int) :
    (s.closeLoan mi m bi book ti t bookId now).IdInv := by
  obtain ⟨h1, h2⟩ := hinv
  refine ⟨by simp [Library.closeLoan, h1], ?_⟩
  intro k x hk
  simp only [Library.closeLoan] at hk
  by_cases hki : ti = k
  · subst hki
    have hlt : ti < s.transactions.length := (List.getElem?_eq_some_iff.1 ht).1
    simp only [List.getElem?_set_self hlt, Option.some.injEq] at hk
    subst hk
    rw [(returnBook_memberId t now).2.2.1]
    exact h2 ti t ht
  · rw [List.getElem?_set_ne hki] at hk
    exact h2 k x hk

theorem IdInv_issueBook {s : Library} (hinv : s.IdInv) (memberId bookId : String)
    (now : Int) : (s.issueBook memberId bookId now).1.IdInv := by
  rcases issueBook_cases s memberId bookId now with ⟨e, h⟩ | ⟨mi, m, bi, book, -, -, -, h⟩ |
    ⟨mi, m, bi, book, -, -, -, -, h⟩
  · rw [h]; exact hinv
  · rw [h]; exact hinv
  · rw [h]; exact IdInv_openLoan hinv _ _ _ _ _ _ now

theorem IdInv_returnBook {s : Library} (hinv : s.IdInv) (memberId bookId : String)
    (now nowIssue : Int) : (s.returnBook memberId bookId now nowIssue).1.IdInv := by
  rcases returnBook_cases s memberId bookId now nowIssue with ⟨e, h⟩ |
    ⟨mi, m, bi, book, ti, t, -, -, ht, ⟨-, h⟩ | ⟨r, rest, -, -, h⟩⟩
  · rw [h]; exact hinv
  · rw [h]; exact IdInv_closeLoan hinv _ _ _ _ (findTransaction_some ht).1 _ now
  · rw [h]
    have h1 : (s.closeLoan mi m bi book ti t bookId now).IdInv :=
      IdInv_closeLoan hinv _ _ _ _ (findTransaction_some ht).1 _ now
    have h2 : ((s.closeLoan mi m bi book ti t bookId now).withReservations rest).IdInv := h1
    exact IdInv_issueBook h2 _ _ _

theorem IdInv_reachable {s0 s : Library} (h0 : s0.IdInv) (hr : Library.Reachable s0 s) :
    s.IdInv := by
  induction hr with
  | init => exact h0
  | step s c _ ih =>
    cases c with
    | issue m b now => exact IdInv_issueBook ih m b now
    | ret m b now nowIssue => exact IdInv_returnBook ih m b now nowIssue

/-- C18: starting with an empty ledger and the counter at its initial value
1000, after any sequence of `issueBook` and `returnBook` calls the `k + 1`-th
transaction created (ledger index `k`) has the identifier `T` followed by the
decimal rendering of `1000 + (k + 1)`, the identifiers of the ledger are
pairwise distinct, and the counter is 1000 plus the ledger length.  The
counter is unbounded here, so it does not overflow. -/
theorem transaction_ids_unique (s0 s : Library) (hledger : s0.transactions = [])
    (hcounter : s0.nextId = 1000) (hr : Library.Reachable s0 s) :
    (∀ (k : Nat) (t : Transaction), s.transactions[k]? = some t →
        t.transactionId = "T" ++ toString (1000 + (k + 1)))
      ∧ (s.transactions.map Transaction.transactionId).Nodup
      ∧ s.nextId = 1000 + s.transactions.length := by
  have h0 : s0.IdInv := by
    refine ⟨by simp [hledger, hcounter], ?_⟩
    intro k t hk
    simp [hledger] at hk
  obtain ⟨h1, h2⟩ := IdInv_reachable h0 hr
  refine ⟨h2, ?_, h1⟩
  rw [List.nodup_iff_getElem?_ne_getElem?]
  intro i j hij hj heq
  simp only [List.length_map] at hj
  have hi : i < s.transactions.length := by omega
  have hgi : s.transactions[i]? = some s.transactions[i] := List.getElem?_eq_getElem hi
  have hgj : s.transactions[j]? = some s.transactions[j] := List.getElem?_eq_getElem hj
  simp only [List.getElem?_map, hgi, hgj, Option.map_some', Option.some.injEq] at heq
  rw [h2 i _ hgi, h2 j _ hgj] at heq
  have := transactionId_injective heq
  omega

theorem transaction_ids_unique_witness :
    sample.transactions = [] ∧ sample.nextId = 1000
      ∧ Library.Reachable sample sampleStaleReservation
      ∧ (sampleStaleReservation.transactions.map Transaction.transactionId).Nodup :=
  ⟨rfl, rfl, reachable_run sample _,
    (transaction_ids_unique sample sampleStaleReservation rfl rfl
      (reachable_run sample _)).2.1⟩

/-! ## Sorting the catalog -/

theorem sort_perm {T : Type} (items : List T) (getIdFunc : T → String) :
    (GenericManager.sort items getIdFunc).Perm items :=
  List.perm_insertionSort _ items

theorem sort_sorted {T : Type} (items : List T) (getIdFunc : T → String) :
    ((GenericManager.sort items getIdFunc).map getIdFunc).Pairwise (fun a b => a ≤ b) := by
  have hle : ∀ a b : T, stringLess (getIdFunc b) (getIdFunc a) = false ↔
      getIdFunc a ≤ getIdFunc b := by
    intro a b
    rw [← not_lt, String.lt_iff_toList_lt]
    simp [stringLess]
  haveI : IsTotal T (fun a b => stringLess (getIdFunc b) (getIdFunc a) = false) :=
    ⟨fun a b => by
      rcases le_total (getIdFunc a) (getIdFunc b) with h | h
      · exact Or.inl ((hle a b).2 h)
      · exact Or.inr ((hle b a).2 h)⟩
  haveI : IsTrans T (fun a b => stringLess (getIdFunc b) (getIdFunc a) = false) :=
    ⟨fun a b c hab hbc => (hle a c).2 (le_trans ((hle a b).1 hab) ((hle b c).1 hbc))⟩
  have h := List.sorted_insertionSort
    (fun a b : T => stringLess (getIdFunc b) (getIdFunc a) = false) items
  rw [List.pairwise_map]
  exact List.Pairwise.imp (fun {a b} hab => (hle a b).1 hab) h

/-- C19: for every catalog, after `sortBooksByID` the item list is a
permutation of the list before the call (the same records, every field
unchanged) and its identifiers ascend in lexicographic order; borrowers,
ledger, queue, recent-activity stack and view, and the counter are
unchanged. -/
theorem sortBooksByID_sorted (s : Library) (n : Int) :
    s.sortBooksByID.books.Perm s.books
      ∧ (s.sortBooksByID.books.map Book.bookId).Pairwise (fun a b => a ≤ b)
      ∧ s.sortBooksByID.members = s.members
      ∧ s.sortBooksByID.transactions = s.transactions
      ∧ s.sortBooksByID.bookReservations = s.bookReservations
      ∧ s.sortBooksByID.recentTransactions = s.recentTransactions
      ∧ s.sortBooksByID.recentView n = s.recentView n
      ∧ s.sortBooksByID.nextId = s.nextId :=
  ⟨sort_perm s.books Book.bookId, sort_sorted s.books Book.bookId, rfl, rfl, rfl, rfl,
    by rw [Library.recentView, Library.recentView, displayRecentTransactions_eq,
      displayRecentTransactions_eq]; rfl, rfl⟩

/-! ## Reservations name indexed records -/

theorem QueueInv_issueBook {s : Library} (hinv : s.QueueInv) (memberId bookId : String)
    (now : Int) : (s.issueBook memberId bookId now).1.QueueInv := by
  have hmi := memberIds_issueBook s memberId bookId now
  have hbi := bookIds_issueBook s memberId bookId now
  intro r hr
  rw [hmi, hbi]
  rcases issueBook_cases s memberId bookId now with ⟨e, h⟩ | ⟨mi, m, bi, book, hm, hb, -, h⟩ |
    ⟨mi, m, bi, book, -, -, -, -, h⟩
  · rw [h] at hr; exact hinv r hr
  · rw [h] at hr
    simp only [withReservations_bookReservations, List.mem_append, List.mem_singleton] at hr
    rcases hr with hr | rfl
    · exact hinv r hr
    · exact ⟨(findMember_isSome_iff s memberId).1 (by rw [hm]; rfl),
        (findBook_isSome_iff s bookId).1 (by rw [hb]; rfl)⟩
  · rw [h] at hr; exact hinv r hr

theorem QueueInv_closeLoan {s : Library} (hinv : s.QueueInv) {memberId bookId : String}
    {mi : Nat} {m : Member} {bi : Nat} {book : Book} (hm : s.findMember memberId = some (mi, m))
    (hb : s.findBook bookId = some (bi, book)) (ti : Nat) (t : Transaction) (now : Int)
    (rest : List (String × String)) (hrest : ∀ r ∈ rest, r ∈ s.bookReservations) :
    ((s.closeLoan mi m bi book ti t bookId now).withReservations rest).QueueInv := by
  intro r hr
  have h1 : (s.closeLoan mi m bi book ti t bookId now).members.map Member.memberId =
      s.members.map Member.memberId :=
    map_set_same Member.memberId (findMember_some hm).1 rfl
  have h2 : (s.closeLoan mi m bi book ti t bookId now).books.map Book.bookId =
      s.books.map Book.bookId :=
    map_set_same Book.bookId (findBook_some hb).1 rfl
  simp only [withReservations_members, withReservations_books, h1, h2]
  exact hinv r (hrest r hr)

theorem QueueInv_returnBook {s : Library} (hinv : s.QueueInv) (memberId bookId : String)
    (now nowIssue : Int) : (s.returnBook memberId bookId now nowIssue).1.QueueInv := by
  rcases returnBook_cases s memberId bookId now nowIssue with ⟨e, h⟩ |
    ⟨mi, m, bi, book, ti, t, hm, hb, -, ⟨-, h⟩ | ⟨r, rest, hq, -, h⟩⟩
  · rw [h]; exact hinv
  · rw [h]
    exact QueueInv_closeLoan hinv hm hb ti t now s.bookReservations (fun r hr => hr)
  · rw [h]
    exact QueueInv_issueBook
      (QueueInv_closeLoan hinv hm hb ti t now rest (fun x hx => by rw [hq]; simp [hx])) _ _ _

theorem QueueInv_reachable {s0 s : Library} (h0 : s0.QueueInv) (hr : Library.Reachable s0 s) :
    s.QueueInv := by
  induction hr with
  | init => exact h0
  | step s c _ ih =>
    cases c with
    | issue m b now => exact QueueInv_issueBook ih m b now
    | ret m b now nowIssue => exact QueueInv_returnBook ih m b now nowIssue

/-- The follow-on issue of a return, for a reserving borrower who is indexed:
it issues the item or throws the issue-limit error, and the queue is left as
the pop left it. -/
theorem follow_on_outcome {s : Library} {memberId bookId : String} {mi : Nat} {m : Member}
    {bi : Nat} {book : Book} (hm : s.findMember memberId = some (mi, m))
    (hb : s.findBook bookId = some (bi, book)) (ti : Nat) (t : Transaction) (now nowIssue : Int)
    (rest : List (String × String)) (r : String)
    (hr : r ∈ s.members.map Member.memberId) :
    ((((s.closeLoan mi m bi book ti t bookId now).withReservations rest).issueBook r bookId
          nowIssue).2 = .ok .issued
        ∨ (((s.closeLoan mi m bi book ti t bookId now).withReservations rest).issueBook r bookId
          nowIssue).2 = .error (.maxIssueLimit r))
      ∧ (((s.closeLoan mi m bi book ti t bookId now).withReservations rest).issueBook r bookId
          nowIssue).1.bookReservations = rest := by
  have hcb : ((s.closeLoan mi m bi book ti t bookId now).withReservations rest).findBook
      bookId = some (bi, book.setAvailability true) := by
    rw [withReservations_findBook, findBook_closeLoan hb, if_pos rfl]
  have hids : ((s.closeLoan mi m bi book ti t bookId now).withReservations rest).members.map
      Member.memberId = s.members.map Member.memberId :=
    map_set_same Member.memberId (findMember_some hm).1 rfl
  have hsome : (((s.closeLoan mi m bi book ti t bookId now).withReservations rest).findMember
      r).isSome = true := by
    rw [findMember_isSome_iff, hids]
    exact hr
  obtain ⟨x, hx⟩ := Option.isSome_iff_exists.1 hsome
  obtain ⟨ri, rm⟩ := x
  by_cases hl : rm.issuedBooks.length ≥ rm.maxBooksAllowed.toSizeT
  · rw [issueBook_limit hx hcb rfl hl, (findMember_some hx).2]
    exact ⟨Or.inr rfl, rfl⟩
  · rw [issueBook_issued hx hcb rfl (by omega)]
    exact ⟨Or.inl rfl, rfl⟩

/-- C21: in every state reachable from a catalog with an empty queue, every
reservation names an indexed borrower and an indexed item.  So when a return
succeeds and the queue head names the returned item, the follow-on issue
either issues the item or throws the issue-limit error (never unknown
borrower, unknown item or a new reservation), and the queue after the return
is the old queue without its head. -/
theorem reservations_indexed (s0 s : Library) (hq0 : s0.bookReservations = [])
    (hreach : Library.Reachable s0 s) :
    (∀ r ∈ s.bookReservations,
        (∃ k m, s.findMember r.1 = some (k, m)) ∧ (∃ k b, s.findBook r.2 = some (k, b)))
      ∧ ∀ (b i : String) (now nowIssue : Int) (r : String × String)
          (rest : List (String × String)) (o : Option (Except LibraryException IssueOutcome)),
          s.bookReservations = r :: rest → r.2 = i →
          (s.returnBook b i now nowIssue).2 = .ok o →
          (o = some (.ok .issued) ∨ o = some (.error (.maxIssueLimit r.1)))
            ∧ (s.returnBook b i now nowIssue).1.bookReservations = rest := by
  have hinv : s.QueueInv := by
    apply QueueInv_reachable _ hreach
    intro r hr
    simp [hq0] at hr
  constructor
  · intro r hr
    obtain ⟨h1, h2⟩ := hinv r hr
    rw [← findMember_isSome_iff] at h1
    rw [← findBook_isSome_iff] at h2
    obtain ⟨x, hx⟩ := Option.isSome_iff_exists.1 h1
    obtain ⟨y, hy⟩ := Option.isSome_iff_exists.1 h2
    exact ⟨⟨x.1, x.2, hx⟩, ⟨y.1, y.2, hy⟩⟩
  · intro b i now nowIssue r rest o hq hri hok
    obtain ⟨mi, m, bi, book, ti, t, hm, hb, ht⟩ := returnBook_ok_inv hok
    have hr : r.1 ∈ s.members.map Member.memberId := (hinv r (by rw [hq]; simp)).1
    have hF := follow_on_outcome hm hb ti t now nowIssue rest r.1 hr
    rw [returnBook_follow hm hb ht hq hri] at hok ⊢
    simp only [Except.ok.injEq] at hok
    refine ⟨?_, hF.2⟩
    rcases hF.1 with h | h
    · exact Or.inl (by rw [← hok, h])
    · exact Or.inr (by rw [← hok, h])

theorem reservations_indexed_witness :
    sample.bookReservations = [] ∧ Library.Reachable sample sampleTwoReservations
      ∧ sampleTwoReservations.bookReservations = [("M1", "B1"), ("M2", "B2")]
      ∧ (sampleTwoReservations.returnBook "M3" "B1" 9 10).2 = .ok (some (.ok .issued))
      ∧ (sampleTwoReservations.returnBook "M3" "B1" 9 10).1.bookReservations = [("M2", "B2")] :=
  ⟨rfl, reachable_run sample _, rfl, rfl,
    ((reservations_indexed sample sampleTwoReservations rfl (reachable_run sample _)).2
      "M3" "B1" 9 10 ("M1", "B1") [("M2", "B2")] (some (.ok .issued)) rfl rfl rfl).2⟩

/-! ## The status report -/

theorem report_loop (l : List Book) (acc : Nat × Nat) :
    l.foldl (fun (acc : Nat × Nat) book =>
        if book.isAvailable then (acc.1 + 1, acc.2) else (acc.1, acc.2 + 1)) acc =
      (acc.1 + l.countP (fun b => b.isAvailable),
        acc.2 + l.countP (fun b => !b.isAvailable)) := by
  induction l generalizing acc with
  | nil => simp
  | cons a l ih =>
    rw [List.foldl_cons, ih]
    cases ha : a.isAvailable <;> simp [List.countP_cons, ha] <;> omega

theorem generateBookStatusReport_eq (s : Library) :
    s.generateBookStatusReport =
      { totalBooks := s.books.length,
        available := s.books.countP (fun b => b.isAvailable),
        issued := s.books.countP (fun b => !b.isAvailable) } := by
  unfold Library.generateBookStatusReport
  simp only [report_loop, Nat.zero_add]

theorem countP_available_add (l : List Book) :
    l.countP (fun b => b.isAvailable) + l.countP (fun b => !b.isAvailable) = l.length := by
  induction l with
  | nil => rfl
  | cons a l ih =>
    cases ha : a.isAvailable <;> simp [List.countP_cons, ha] <;> omega

/-- Number of unavailable books and number of unreturned transactions. -/
theorem issued_openLoan {s : Library} {memberId bookId : String} {mi : Nat} {m : Member}
    {bi : Nat} {book : Book} (hb : s.findBook bookId = some (bi, book))
    (ha : book.isAvailable = true) (now : Int) :
    (s.openLoan mi m bi book memberId bookId now).books.countP (fun b => !b.isAvailable) =
        s.books.countP (fun b => !b.isAvailable) + 1
      ∧ (s.openLoan mi m bi book memberId bookId now).transactions.countP
          (fun t => !t.isReturned) = s.transactions.countP (fun t => !t.isReturned) + 1 := by
  obtain ⟨hlt, hget⟩ := List.getElem?_eq_some_iff.1 (findBook_some hb).1
  constructor
  · simp only [Library.openLoan]
    rw [List.countP_set _ _ _ _ hlt, hget]
    simp [ha, Book.setAvailability]
  · simp [Library.openLoan, List.countP_append, Transaction.new]

theorem issued_closeLoan {s : Library} (hloan : s.LoanInv) {memberId bookId : String}
    {mi : Nat} {m : Member} {bi : Nat} {book : Book} {ti : Nat} {t : Transaction}
    (hb : s.findBook bookId = some (bi, book))
    (ht : s.findTransaction memberId bookId = some (ti, t)) (now : Int) :
    (s.closeLoan mi m bi book ti t bookId now).books.countP (fun b => !b.isAvailable) + 1 =
        s.books.countP (fun b => !b.isAvailable)
      ∧ (s.closeLoan mi m bi book ti t bookId now).transactions.countP
          (fun t => !t.isReturned) + 1 = s.transactions.countP (fun t => !t.isReturned) := by
  have hts := findTransaction_some ht
  obtain ⟨hlt, hget⟩ := List.getElem?_eq_some_iff.1 (findBook_some hb).1
  obtain ⟨hlt2, hget2⟩ := List.getElem?_eq_some_iff.1 hts.1
  have hbm : book ∈ s.books := List.getElem?_mem (findBook_some hb).1
  have htm : t ∈ s.transactions := List.getElem?_mem hts.1
  -- the book is on loan, since an open transaction references it
  have hpos : 0 < s.openCount bookId :=
    List.countP_pos_iff.2 ⟨t, htm, by simp [hts.2.2.1, hts.2.2.2]⟩
  have hna : book.isAvailable = false := by
    have h := hloan bookId bi book hb
    cases hav : book.isAvailable
    · rfl
    · rw [hav] at h
      simp only [if_true] at h
      omega
  have hp1 : 0 < s.books.countP (fun b => !b.isAvailable) :=
    List.countP_pos_iff.2 ⟨book, hbm, by simp [hna]⟩
  have hp2 : 0 < s.transactions.countP (fun t => !t.isReturned) :=
    List.countP_pos_iff.2 ⟨t, htm, by simp [hts.2.2.2]⟩
  constructor
  · simp only [Library.closeLoan]
    rw [List.countP_set _ _ _ _ hlt, hget]
    simp only [hna, Book.setAvailability, Bool.not_false, Bool.not_true, if_true]
    simp only [Bool.false_eq_true, if_false]
    omega
  · simp only [Library.closeLoan]
    rw [List.countP_set _ _ _ _ hlt2, hget2]
    simp only [returnBook_isReturned, hts.2.2.2, Bool.not_false, Bool.not_true, if_true]
    simp only [Bool.false_eq_true, if_false]
    omega

theorem issued_issueBook {s : Library}
    (hc : s.books.countP (fun b => !b.isAvailable) =
      s.transactions.countP (fun t => !t.isReturned))
    (memberId bookId : String) (now : Int) :
    (s.issueBook memberId bookId now).1.books.countP (fun b => !b.isAvailable) =
      (s.issueBook memberId bookId now).1.transactions.countP (fun t => !t.isReturned) := by
  rcases issueBook_cases s memberId bookId now with ⟨e, h⟩ | ⟨mi, m, bi, book, -, -, -, h⟩ |
    ⟨mi, m, bi, book, -, hb, ha, -, h⟩
  · rw [h]; exact hc
  · rw [h]; exact hc
  · rw [h]
    have h1 : (s.openLoan mi m bi book memberId bookId now).books.countP
          (fun b => !b.isAvailable) = s.books.countP (fun b => !b.isAvailable) + 1
        ∧ (s.openLoan mi m bi book memberId bookId now).transactions.countP
          (fun t => !t.isReturned) = s.transactions.countP (fun t => !t.isReturned) + 1 :=
      issued_openLoan hb ha now
    show (s.openLoan mi m bi book memberId bookId now).books.countP _ =
      (s.openLoan mi m bi book memberId bookId now).transactions.countP _
    omega

theorem issued_returnBook {s : Library} (hloan : s.LoanInv)
    (hc : s.books.countP (fun b => !b.isAvailable) =
      s.transactions.countP (fun t => !t.isReturned))
    (memberId bookId : String) (now nowIssue : Int) :
    (s.returnBook memberId bookId now nowIssue).1.books.countP (fun b => !b.isAvailable) =
      (s.returnBook memberId bookId now nowIssue).1.transactions.countP
        (fun t => !t.isReturned) := by
  rcases returnBook_cases s memberId bookId now nowIssue with ⟨e, h⟩ |
    ⟨mi, m, bi, book, ti, t, -, hb, ht, ⟨-, h⟩ | ⟨r, rest, -, -, h⟩⟩
  · rw [h]; exact hc
  · rw [h]
    have h1 : (s.closeLoan mi m bi book ti t bookId now).books.countP
          (fun b => !b.isAvailable) + 1 = s.books.countP (fun b => !b.isAvailable)
        ∧ (s.closeLoan mi m bi book ti t bookId now).transactions.countP
          (fun t => !t.isReturned) + 1 = s.transactions.countP (fun t => !t.isReturned) :=
      issued_closeLoan hloan hb ht now
    show (s.closeLoan mi m bi book ti t bookId now).books.countP _ =
      (s.closeLoan mi m bi book ti t bookId now).transactions.countP _
    omega
  · rw [h]
    have h1 : (s.closeLoan mi m bi book ti t bookId now).books.countP
          (fun b => !b.isAvailable) + 1 = s.books.countP (fun b => !b.isAvailable)
        ∧ (s.closeLoan mi m bi book ti t bookId now).transactions.countP
          (fun t => !t.isReturned) + 1 = s.transactions.countP (fun t => !t.isReturned) :=
      issued_closeLoan hloan hb ht now
    have h2 : ((s.closeLoan mi m bi book ti t bookId now).withReservations rest).books.countP
          (fun b => !b.isAvailable) =
        ((s.closeLoan mi m bi book ti t bookId now).withReservations rest).transactions.countP
          (fun t => !t.isReturned) := by
      show (s.closeLoan mi m bi book ti t bookId now).books.countP _ =
        (s.closeLoan mi m bi book ti t bookId now).transactions.countP _
      omega
    exact issued_issueBook h2 _ _ _

/-- C22: from a freshly loaded catalog (every item available, empty ledger),
after any sequence of `issueBook` and `returnBook` calls the counts of
`generateBookStatusReport` satisfy `available + issued = total number of
items`, and the issued count is the number of unreturned transactions in the
ledger. -/
theorem status_report_counts (s0 s : Library)
    (havail : ∀ b ∈ s0.books, b.isAvailable = true) (hledger : s0.transactions = [])
    (hreach : Library.Reachable s0 s) :
    s.generateBookStatusReport.available + s.generateBookStatusReport.issued =
        s.generateBookStatusReport.totalBooks
      ∧ s.generateBookStatusReport.totalBooks = s.books.length
      ∧ s.generateBookStatusReport.issued =
        s.transactions.countP (fun t => !t.isReturned) := by
  rw [generateBookStatusReport_eq]
  refine ⟨countP_available_add s.books, rfl, ?_⟩
  show s.books.countP (fun b => !b.isAvailable) = s.transactions.countP (fun t => !t.isReturned)
  have hl0 : s0.LoanInv := LoanInv_of_fresh havail hledger
  induction hreach with
  | init =>
    rw [hledger, List.countP_nil, List.countP_eq_zero]
    intro b hb
    simp [havail b hb]
  | step s c hprev ih =>
    have hloan := LoanInv_reachable hl0 hprev
    cases c with
    | issue m b now => exact issued_issueBook ih m b now
    | ret m b now nowIssue => exact issued_returnBook hloan ih m b now nowIssue

theorem status_report_counts_witness :
    (∀ b ∈ sample.books, b.isAvailable = true) ∧ sample.transactions = []
      ∧ Library.Reachable sample sampleStaleReservation
      ∧ sampleStaleReservation.generateBookStatusReport =
          { totalBooks := 2, available := 1, issued := 1 }
      ∧ sampleStaleReservation.generateBookStatusReport.issued =
          sampleStaleReservation.transactions.countP (fun t => !t.isReturned) :=
  ⟨by decide, rfl, reachable_run sample _, by decide,
    (status_report_counts sample sampleStaleReservation (by decide) rfl
      (reachable_run sample _)).2.2⟩

end SmartLibrary
